import Mathlib

/-!
Verification of the fsleyes-props property/notification core.

This file gives a shallow embedding, in Lean 4, of the parts of the
fsleyes-props code base that the frozen claims are about:

* `src/props/callqueue.py`         — the `CallQueue` class
* `src/props/properties_value.py`  — `PropertyValue` and `PropertyValueList`
* `src/props/properties.py`        — `PropertyBase` / `HasProperties`
* `src/props/bindable.py`          — the bind/sync layer
* `src/props/suppress.py`          — the `suppress` / `suppressAll` scopes

Python objects become explicit state records; mutation becomes state
passing; exceptions become `Except` / explicit result constructors;
listener callbacks are represented by their (queue call) names, and a
"notification" is the appearance of such a name in an event trace or on
the call queue.  Values of `Int`-valued properties are modelled as `Int`
(the claims under study concern plain `Int` properties whose cast is the
identity and whose validator never fails, or parameterise the cast and
validator explicitly).
-/

namespace FsleyesProps

/-! ## CallQueue (src/props/callqueue.py)

A `Call` is one queued unit of work: its queue name and its `execute`
flag (`CallQueue.dequeue` clears the flag; the drain skips cleared
calls).  The behaviour of a callback, when it runs, is modelled by an
environment `env : String → List String`: executing the callback whose
queue name is `n` performs `call` for each name in `env n` (this models
a listener which itself triggers further notifications while the drain
is in progress).  A callback which enqueues nothing has `env n = []`.
-/

structure Call where
  name    : String
  execute : Bool
deriving DecidableEq, Repr

/-- State of a `CallQueue`: the FIFO queue of pending calls, the
`skipDuplicates` configuration flag, and the `__calling` reentrancy
guard.  The `__queued` name-index of the Python class is derivable from
the queue itself (`queuedNames`), so it is not stored separately. -/
structure CallQueue where
  queue          : List Call
  skipDuplicates : Bool
  calling        : Bool
deriving DecidableEq, Repr

namespace CallQueue

/-- The names currently enqueued (the key set of the Python `__queued`
dict, with multiplicity). -/
def queuedNames (cq : CallQueue) : List String :=
  cq.queue.map (·.name)

/-- `CallQueue.__push`: append the call to the queue, unless
`skipDuplicates` is set and a call of the same name is already
enqueued.  Returns the new state and whether the call was enqueued. -/
def push (cq : CallQueue) (c : Call) : CallQueue × Bool :=
  if cq.skipDuplicates && (cq.queuedNames).contains c.name then
    (cq, false)
  else
    ({ cq with queue := cq.queue ++ [c] }, true)

/-- Push a list of calls one after the other (used by `callAll`), also
returning the Python `anyEnqueued` flag. -/
def pushAll (cq : CallQueue) (cs : List Call) : CallQueue × Bool :=
  cs.foldl (fun acc c => ((push acc.1 c).1, acc.2 || (push acc.1 c).2)) (cq, false)

/-- `CallQueue.__call`, the drain loop: pop calls one at a time and run
them until the queue is empty, then clear the `calling` flag.  Running
a call `c` with `c.execute = true` first performs, for each name `n` in
`env c.name`, the enqueue part of a nested `call` — the nested drain
attempt returns immediately because `calling` is `true`, so only the
`push` is visible.  An exception raised by a callback is caught and
logged by the Python code and does not disturb the queue, so callback
bodies here only enqueue.  `fuel` bounds the number of loop iterations
(the Python loop runs until the queue empties); all theorems supply
sufficient fuel. -/
def drainLoop (env : String → List String) : Nat → CallQueue → CallQueue × List String
  | 0, cq => (cq, [])
  | fuel + 1, cq =>
    match cq.queue with
    | [] => ({ cq with calling := false }, [])
    | c :: rest =>
      let cq1 := { cq with queue := rest }
      if c.execute then
        let cq2 := (env c.name).foldl
          (fun acc n => (push acc (Call.mk n true)).1) cq1
        let res := drainLoop env fuel cq2
        (res.1, c.name :: res.2)
      else
        drainLoop env fuel cq1

/-- The guarded entry to the drain (`__call`): if a drain is already in
progress, return immediately; otherwise drain with the `calling` flag
set. -/
def privCall (env : String → List String) (fuel : Nat) (cq : CallQueue) :
    CallQueue × List String :=
  if cq.calling then (cq, [])
  else drainLoop env fuel { cq with calling := true }

/-- `CallQueue.call`: enqueue one call and, if it was enqueued, drain. -/
def call (env : String → List String) (fuel : Nat) (cq : CallQueue) (c : Call) :
    CallQueue × List String :=
  if (push cq c).2 then privCall env fuel (push cq c).1
  else ((push cq c).1, [])

/-- `CallQueue.callAll`: enqueue all given calls and, if any was
enqueued, drain. -/
def callAll (env : String → List String) (fuel : Nat) (cq : CallQueue) (cs : List Call) :
    CallQueue × List String :=
  if (pushAll cq cs).2 then privCall env fuel (pushAll cq cs).1
  else ((pushAll cq cs).1, [])

/-- `push` never touches the reentrancy guard. -/
theorem push_calling (cq : CallQueue) (c : Call) :
    ((push cq c).1).calling = cq.calling := by
  unfold push
  split <;> rfl

/-- `pushAll` never touches the reentrancy guard. -/
theorem pushAll_calling (cs : List Call) :
    ∀ (cq : CallQueue) (b : Bool),
      ((cs.foldl (fun acc c => ((push acc.1 c).1, acc.2 || (push acc.1 c).2))
        (cq, b)).1).calling = cq.calling := by
  induction cs with
  | nil => intro cq b; rfl
  | cons x xs ih =>
    intro cq b
    simp only [List.foldl_cons]
    rw [ih ((push cq x).1) (b || (push cq x).2)]
    exact push_calling cq x

/-- Pushing a call whose name is not currently enqueued always appends
it to the queue tail. -/
theorem push_fresh (cq : CallQueue) (c : Call)
    (h : c.name ∉ cq.queuedNames) :
    push cq c = ({ cq with queue := cq.queue ++ [c] }, true) := by
  unfold push
  rw [if_neg]
  simp [h]

/-- Folding fresh, pairwise-distinct pushes (the enqueues performed by
an executing callback) appends the corresponding calls in order. -/
theorem foldl_push_fresh (sd : Bool) :
    ∀ (ws : List String) (q : List Call),
      (∀ w ∈ ws, w ∉ q.map (·.name)) → ws.Nodup →
      ws.foldl (fun acc n => (push acc (Call.mk n true)).1)
          ⟨q, sd, true⟩
        = ⟨q ++ ws.map (Call.mk · true), sd, true⟩ := by
  intro ws
  induction ws with
  | nil => intro q _ _; simp
  | cons w ws ih =>
    intro q hfresh hnd
    have hw : w ∉ (⟨q, sd, true⟩ : CallQueue).queuedNames := by
      simpa [queuedNames] using hfresh w (by simp)
    have hpush := push_fresh ⟨q, sd, true⟩ (Call.mk w true) hw
    have hrest : ∀ x ∈ ws, x ∉ (q ++ [Call.mk w true]).map (·.name) := by
      intro x hx
      simp only [List.map_append, List.mem_append, List.map_cons, List.map_nil,
        List.mem_singleton, not_or]
      refine ⟨hfresh x (by simp [hx]), ?_⟩
      intro hxw
      exact (List.nodup_cons.mp hnd).1 (by simpa [hxw] using hx)
    have := ih (q ++ [Call.mk w true]) hrest (List.nodup_cons.mp hnd).2
    simp only [List.foldl_cons, hpush, this, List.map_cons]
    simp

/-- Draining a queue of executable callbacks which enqueue nothing
further runs them all in FIFO order and empties the queue. -/
theorem drainLoop_no_spawn (env : String → List String) (sd : Bool) :
    ∀ (q : List Call) (fuel : Nat),
      (∀ c ∈ q, c.execute = true ∧ env c.name = []) →
      q.length < fuel →
      drainLoop env fuel ⟨q, sd, true⟩ = (⟨[], sd, false⟩, q.map (·.name)) := by
  intro q
  induction q with
  | nil =>
    intro fuel _ hfuel
    match fuel, hfuel with
    | fuel + 1, _ => rfl
  | cons c rest ih =>
    intro fuel hq hfuel
    match fuel, hfuel with
    | fuel + 1, hfuel =>
      have hc := hq c (by simp)
      have hrest : ∀ x ∈ rest, x.execute = true ∧ env x.name = [] := by
        intro x hx; exact hq x (by simp [hx])
      have hlen : rest.length < fuel := Nat.lt_of_succ_lt_succ hfuel
      simp only [drainLoop, hc.1, hc.2, if_true, List.foldl_nil,
        ih fuel hrest hlen, List.map_cons]

/-- Draining through a prefix of executable, non-spawning callbacks
first runs exactly that prefix, in order. -/
theorem drainLoop_prefix (env : String → List String) (sd : Bool) :
    ∀ (P : List Call) (fuel : Nat) (rest : List Call),
      (∀ p ∈ P, p.execute = true ∧ env p.name = []) →
      drainLoop env (P.length + fuel) ⟨P ++ rest, sd, true⟩
        = ((drainLoop env fuel ⟨rest, sd, true⟩).1,
           P.map (·.name) ++ (drainLoop env fuel ⟨rest, sd, true⟩).2) := by
  intro P
  induction P with
  | nil => intro fuel rest _; simp
  | cons p P ih =>
    intro fuel rest hP
    have hp := hP p (by simp)
    have hPrest : ∀ x ∈ P, x.execute = true ∧ env x.name = [] := by
      intro x hx; exact hP x (by simp [hx])
    have hstep : P.length + 1 + fuel = (P.length + fuel) + 1 := by omega
    rw [List.length_cons, hstep]
    simp only [List.cons_append, drainLoop, hp.1, hp.2, if_true, List.foldl_nil,
      ih fuel rest hPrest, List.map_cons, List.cons_append]

end CallQueue

/-- Claim C4: `CallQueue` invokes queued callbacks in FIFO enqueue
order; a `call` (or `callAll`) performed while a drain is in progress
returns immediately — only the push is visible, no nested drain starts —
and the newly enqueued work is executed by the in-progress drain after
every item that was queued before it.  Part (a) is the reentrancy
guard, for `call` and `callAll`; part (b) runs a drain over a queue
`P ++ c :: R` in which executing `c` enqueues the fresh callbacks `ws`:
the execution order is exactly `P`, then `c`, then `R`, then `ws`. -/
theorem C4_callqueue_fifo_reentrancy
    (env : String → List String) (fuel : Nat) (cq : CallQueue) (c : Call) :
    (cq.calling = true →
      CallQueue.call env fuel cq c = ((CallQueue.push cq c).1, []) ∧
      ∀ cs, CallQueue.callAll env fuel cq cs = ((CallQueue.pushAll cq cs).1, [])) ∧
    (∀ (P R : List Call) (ws : List String) (sd : Bool),
      (∀ p ∈ P, p.execute = true ∧ env p.name = []) →
      (∀ r ∈ R, r.execute = true ∧ env r.name = []) →
      (∀ w ∈ ws, env w = []) →
      c.execute = true → env c.name = ws →
      (∀ w ∈ ws, w ∉ R.map (·.name)) → ws.Nodup →
      CallQueue.drainLoop env (P.length + (R.length + ws.length + 2))
          ⟨P ++ c :: R, sd, true⟩
        = (⟨[], sd, false⟩,
           P.map (·.name) ++ c.name :: (R.map (·.name) ++ ws))) := by
  constructor
  · intro hcalling
    constructor
    · unfold CallQueue.call CallQueue.privCall
      have h1 : ((CallQueue.push cq c).1).calling = true := by
        rw [CallQueue.push_calling]; exact hcalling
      simp [h1]
    · intro cs
      unfold CallQueue.callAll CallQueue.privCall
      have h1 : ((CallQueue.pushAll cq cs).1).calling = true := by
        unfold CallQueue.pushAll
        rw [CallQueue.pushAll_calling]; exact hcalling
      simp [h1]
  · intro P R ws sd hP hR hws hcx hcenv hfresh hnd
    have hinner :
        CallQueue.drainLoop env ((R.length + ws.length + 1) + 1)
            ⟨c :: R, sd, true⟩
          = (⟨[], sd, false⟩, c.name :: (R.map (·.name) ++ ws)) := by
      have hfold :
          ws.foldl (fun acc n => (CallQueue.push acc (Call.mk n true)).1)
              ⟨R, sd, true⟩
            = ⟨R ++ ws.map (Call.mk · true), sd, true⟩ :=
        CallQueue.foldl_push_fresh sd ws R hfresh hnd
      have hexec : ∀ x ∈ R ++ ws.map (Call.mk · true),
          x.execute = true ∧ env x.name = [] := by
        intro x hx
        rcases List.mem_append.mp hx with hx | hx
        · exact hR x hx
        · rcases List.mem_map.mp hx with ⟨w, hw, rfl⟩
          exact ⟨rfl, hws w hw⟩
      have hlen : (R ++ ws.map (Call.mk · true)).length
          < R.length + ws.length + 1 := by
        simp [List.length_append]
      have hdrain := CallQueue.drainLoop_no_spawn env sd
        (R ++ ws.map (Call.mk · true)) (R.length + ws.length + 1) hexec hlen
      rw [CallQueue.drainLoop]
      dsimp only
      rw [hcx]
      rw [if_pos rfl, hcenv, hfold, hdrain]
      have hcomp : ((fun x : Call => x.name) ∘ fun x =>
          ({ name := x, execute := true } : Call)) = id := rfl
      simp [List.map_map, hcomp]
    have hsplit : P.length + (R.length + ws.length + 2)
        = P.length + ((R.length + ws.length + 1) + 1) := by omega
    rw [hsplit,
      CallQueue.drainLoop_prefix env sd P ((R.length + ws.length + 1) + 1)
        (c :: R) hP, hinner]

/-- Concrete instantiation of `C4_callqueue_fifo_reentrancy`: the
callback named `c` enqueues `w1` and `w2` while the drain is running;
they execute after the previously queued `p1, p2, c, r1`. -/
def envC4 : String → List String :=
  fun n => if n = "c" then ["w1", "w2"] else []

theorem C4_callqueue_fifo_reentrancy_witness :
    (CallQueue.call envC4 7 ⟨[Call.mk "x" true], true, true⟩ (Call.mk "c" true)
      = ((CallQueue.push ⟨[Call.mk "x" true], true, true⟩ (Call.mk "c" true)).1, [])) ∧
    CallQueue.drainLoop envC4 7
        ⟨[Call.mk "p1" true, Call.mk "p2" true, Call.mk "c" true,
          Call.mk "r1" true], true, true⟩
      = (⟨[], true, false⟩, ["p1", "p2", "c", "r1", "w1", "w2"]) := by
  have h := C4_callqueue_fifo_reentrancy envC4 7
    ⟨[Call.mk "x" true], true, true⟩ (Call.mk "c" true)
  refine ⟨(h.1 rfl).1, ?_⟩
  have hb := h.2 [Call.mk "p1" true, Call.mk "p2" true] [Call.mk "r1" true]
    ["w1", "w2"] true (by decide) (by decide) (by decide) rfl (by decide)
    (by decide) (by decide)
  simpa using hb

/-! ## PropertyValue (src/props/properties_value.py)

A scalar `PropertyValue` cell.  Python attribute mutation becomes state
passing; the `castFunc` and `validateFunc` constructor arguments become
explicit function parameters of the operations (a validator "raises
`ValueError`" exactly when the embedded `Validate` function returns
`false`); the opaque `context` argument, which the cell only ever
passes back to those functions, is absorbed into them.  Values are
`Option Int` (`none` is Python `None`, the default initial value).
Listeners are represented by their names together with their
enabled/disabled state (`_changeListenerStates`); a "notification" is
the list of listener names submitted to the call queue.  The default
equality function `lambda a, b: a == b` is the `BEq` test on
`Option Int`. -/

/-- The `_attributes` dict of a `PropertyValue`: an association list
from attribute name to attribute value (attribute values themselves may
be Python `None`, hence `Option Int`). -/
abbrev Attributes := List (String × Option Int)

/-- Python `dict.get(name, None)`-style lookup returning `none` when
the key is absent (`getAtt atts n = some v` means the key is present
with value `v`). -/
def getAtt : Attributes → String → Option (Option Int)
  | [], _ => none
  | (k, v) :: rest, name => if k = name then some v else getAtt rest name

/-- Python `d[name] = v`: replace the first binding of `name`, or
append a new one. -/
def storeAtt : Attributes → String → Option Int → Attributes
  | [], name, v => [(name, v)]
  | (k, w) :: rest, name, v =>
    if k = name then (k, v) :: rest else (k, w) :: storeAtt rest name v

/-- Casting function (`castFunc(context, attributes, value)` with the
context absorbed). -/
abbrev Cast := Attributes → Option Int → Option Int

/-- Validation function: `true` iff `validateFunc(context, attributes,
value)` returns without raising `ValueError`. -/
abbrev Validate := Attributes → Option Int → Bool

structure PropertyValue where
  value        : Option Int
  valid        : Bool
  lastValue    : Option Int
  lastValid    : Bool
  notification : Bool
  allowInvalid : Bool
  preNotify    : Bool
  postNotify   : Bool
  listeners    : List (String × Bool)
  attListeners : List String
  attributes   : Attributes
deriving DecidableEq, Repr

namespace PropertyValue

/-- `PropertyValue.__init__`: the initial value is passed through the
cast function; `__valid` starts out `False` (it is only recomputed by
`set`), `__lastValue` is `None`, `__lastValid` is `False` and
notification is enabled.  When `allowInvalid` is `False` the validator
is run on the initial value and its `ValueError` propagates. -/
def init (cast : Cast) (validate : Validate) (allowInvalid : Bool)
    (value : Option Int) (attributes : Attributes) :
    Except String PropertyValue :=
  let value := cast attributes value
  if !allowInvalid && !(validate attributes value) then .error "ValueError"
  else .ok
    { value := value
      valid := false
      lastValue := none
      lastValid := false
      notification := true
      allowInvalid := allowInvalid
      preNotify := false
      postNotify := false
      listeners := []
      attListeners := []
      attributes := attributes }

/-- `PropertyValue.addListener`: reserved names are rejected;
re-registering an existing name without `overwrite` raises
`RuntimeError`; on success the listener is stored enabled. -/
def addListener (pv : PropertyValue) (name : String) (overwrite : Bool) :
    Except String PropertyValue :=
  if name = "prenotify" ∨ name = "postnotify" then
    .error "ValueError"
  else
    match pv.listeners.find? (fun l => l.1 = name) with
    | none => .ok { pv with listeners := pv.listeners ++ [(name, true)] }
    | some _ =>
      if overwrite then
        .ok { pv with listeners :=
          pv.listeners.map (fun l => if l.1 = name then (name, true) else l) }
      else .error "RuntimeError"

/-- The batch of listener call names that `PropertyValue.notify`
submits to the call queue: nothing when notification is disabled,
otherwise the pre-notify hook, then every enabled registered listener,
then the post-notify hook. -/
def notifyEvents (pv : PropertyValue) : List String :=
  if !pv.notification then []
  else
    (if pv.preNotify then ["prenotify"] else [])
      ++ (pv.listeners.filter (·.2)).map (·.1)
      ++ (if pv.postNotify then ["postnotify"] else [])

/-- Result of `PropertyValue.set`: either a normal return or a
propagated `ValueError`, in both cases together with the cell state
after the call and the notification batch it triggered. -/
inductive SetResult where
  | ok     (pv : PropertyValue) (events : List String)
  | raised (pv : PropertyValue) (events : List String)
deriving DecidableEq, Repr

/-- The state component of a `SetResult`. -/
def SetResult.state : SetResult → PropertyValue
  | .ok pv _ => pv
  | .raised pv _ => pv

/-- The notification batch of a `SetResult`. -/
def SetResult.events : SetResult → List String
  | .ok _ evs => evs
  | .raised _ evs => evs

/-- `PropertyValue.set`: cast the candidate value (cast errors
propagate, so the cast here is total and applied first), validate it,
and if validation fails while `allowInvalid` is `False` re-raise the
`ValueError` before any state is touched.  Otherwise store the value
and its validity, update the last-value/last-valid bookkeeping, and
notify listeners iff the `(value, valid)` pair changed (equality via
the equality function, default `==`). -/
def set (cast : Cast) (validate : Validate) (pv : PropertyValue)
    (newValue : Option Int) : SetResult :=
  let newValue := cast pv.attributes newValue
  let valid := validate pv.attributes newValue
  if !valid && !pv.allowInvalid then .raised pv []
  else
    let pv1 := { pv with
      lastValue := pv.value
      lastValid := pv.valid
      value := newValue
      valid := valid }
    let changed := (pv1.valid != pv1.lastValid) || !(pv1.value == pv1.lastValue)
    if changed then .ok pv1 pv1.notifyEvents else .ok pv1 []

/-- `PropertyValue.revalidate`: re-runs `set` with the current value. -/
def revalidate (cast : Cast) (validate : Validate) (pv : PropertyValue) :
    SetResult :=
  set cast validate pv pv.value

/-- The batch of attribute-listener call names submitted by
`PropertyValue.notifyAttributeListeners` (nothing when notification is
disabled). -/
def notifyAttributeListenersEvents (pv : PropertyValue) : List String :=
  if !pv.notification then [] else pv.attListeners

/-- Result of `PropertyValue.setAttribute`: the cell state afterwards,
the attribute-listener notifications, whether `revalidate()` was
reached, the value-change notifications produced by that revalidation,
and whether the revalidation re-raised a `ValueError`. -/
structure SetAttributeResult where
  pv          : PropertyValue
  attEvents   : List String
  revalidated : Bool
  valueEvents : List String
  raised      : Bool
deriving DecidableEq, Repr

/-- `PropertyValue.setAttribute`: store the attribute; if the previous
value (with `dict.get(name, None)` semantics) equals the new one,
return without notifying attribute listeners and without revalidating;
otherwise notify the attribute listeners and then `revalidate()`. -/
def setAttribute (cast : Cast) (validate : Validate) (pv : PropertyValue)
    (name : String) (v : Option Int) : SetAttributeResult :=
  let oldVal := (getAtt pv.attributes name).getD none
  let pv1 := { pv with attributes := storeAtt pv.attributes name v }
  if oldVal == v then ⟨pv1, [], false, [], false⟩
  else
    let attEvents := pv1.notifyAttributeListenersEvents
    match set cast validate pv1 pv1.value with
    | .ok pv2 evs => ⟨pv2, attEvents, true, evs, false⟩
    | .raised pv2 evs => ⟨pv2, attEvents, true, evs, true⟩

end PropertyValue

/-! ## PropertyBase.setConstraint (src/props/properties.py) -/

/-- Result of `PropertyBase.setConstraint`: the (possibly absent)
per-instance `PropertyValue`, the shared `_defaultConstraints` dict,
and the notifications/revalidation triggered. -/
structure SetConstraintResult where
  instPropVal        : Option PropertyValue
  defaultConstraints : Attributes
  attEvents          : List String
  revalidated        : Bool
deriving DecidableEq, Repr

/-- `PropertyBase.setConstraint`: look up the old constraint value on
the instance `PropertyValue` (or, when `instance` is `None`, in the
shared `_defaultConstraints` dict) — a missing key raises `KeyError` —
and return immediately when the new value equals the old one; otherwise
store it (via `PropertyValue.setAttribute` on the instance, or directly
into the defaults dict). -/
def setConstraint (cast : Cast) (validate : Validate)
    (instPropVal : Option PropertyValue) (defaultConstraints : Attributes)
    (constraint : String) (value : Option Int) :
    Except String SetConstraintResult :=
  let oldVal? := match instPropVal with
    | none => getAtt defaultConstraints constraint
    | some pv => getAtt pv.attributes constraint
  match oldVal? with
  | none => .error "KeyError"
  | some oldVal =>
    if value == oldVal then
      .ok ⟨instPropVal, defaultConstraints, [], false⟩
    else
      match instPropVal with
      | none => .ok ⟨none, storeAtt defaultConstraints constraint value, [], false⟩
      | some pv =>
        let r := PropertyValue.setAttribute cast validate pv constraint value
        .ok ⟨some r.pv, defaultConstraints, r.attEvents, r.revalidated⟩

/-- The identity cast (`PropertyBase.cast` default implementation). -/
def castId : Cast := fun _ v => v

/-- A validator that never raises (`PropertyBase.validate` with
`required=False` and no custom validation function). -/
def validateTrue : Validate := fun _ _ => true

/-- A validator that always raises `ValueError`. -/
def validateFalse : Validate := fun _ _ => false

/-- Overwriting an existing binding with the value it already holds is
the identity on the attribute dict. -/
theorem storeAtt_self :
    ∀ (atts : Attributes) (name : String) (v : Option Int),
      getAtt atts name = some v → storeAtt atts name v = atts := by
  intro atts
  induction atts with
  | nil => intro name v h; simp [getAtt] at h
  | cons kv rest ih =>
    intro name v h
    obtain ⟨k, w⟩ := kv
    by_cases hk : k = name
    · have hw : w = v := by
        simpa [getAtt, hk] using h
      simp [storeAtt, hk, hw]
    · have hrest : getAtt rest name = some v := by
        simpa [getAtt, hk] using h
      simp [storeAtt, hk, ih name v hrest]

/-- Claim C3: if a `PropertyValue` was created with
`allowInvalid=False` and the validator raises `ValueError` for the cast
candidate value, `set` re-raises the `ValueError` to the caller with
the cell state completely unchanged and no listeners notified. -/
theorem C3_allowInvalid_false_set_raises_unchanged
    (cast : Cast) (validate : Validate) (pv : PropertyValue) (v : Option Int)
    (hai : pv.allowInvalid = false)
    (hval : validate pv.attributes (cast pv.attributes v) = false) :
    PropertyValue.set cast validate pv v = .raised pv [] := by
  unfold PropertyValue.set
  simp [hai, hval]

/-- A `PropertyValue` state used by several concrete witnesses. -/
def pvDemo : PropertyValue :=
  { value := some 3
    valid := true
    lastValue := some 2
    lastValid := true
    notification := true
    allowInvalid := false
    preNotify := false
    postNotify := true
    listeners := [("L", true)]
    attListeners := ["A"]
    attributes := [("minval", some 1)] }

theorem C3_allowInvalid_false_set_raises_unchanged_witness :
    pvDemo.allowInvalid = false ∧
    validateFalse pvDemo.attributes (castId pvDemo.attributes (some 7)) = false ∧
    PropertyValue.set castId validateFalse pvDemo (some 7)
      = .raised pvDemo [] :=
  ⟨rfl, rfl,
    C3_allowInvalid_false_set_raises_unchanged castId validateFalse pvDemo
      (some 7) rfl rfl⟩

/-- The `PropertyValue` state produced by `__init__` with initial value
`0`, the identity cast, an always-succeeding validator and
`allowInvalid=True`, followed by `addListener("L", ...)`. -/
def pvFresh : PropertyValue :=
  { value := some 0
    valid := false
    lastValue := none
    lastValid := false
    notification := true
    allowInvalid := true
    preNotify := false
    postNotify := false
    listeners := [("L", true)]
    attListeners := []
    attributes := [] }

/-- Claim C2, counterexample: on a freshly constructed `PropertyValue`
(whose `__valid` field starts out `False`), `set(get())` recomputes the
validity as `True` and therefore DOES fire a notification, even though
the written-back value is unchanged.  So `set(get())` does not "never"
notify. -/
theorem C2_set_get_counterexample :
    ((PropertyValue.init castId validateTrue true (some 0) []).bind
        (fun pv => pv.addListener "L" false) = .ok pvFresh) ∧
    (PropertyValue.set castId validateTrue pvFresh pvFresh.value).events
      = ["L"] ∧
    ["L"] ≠ ([] : List String) := by
  refine ⟨rfl, rfl, by decide⟩

/-- Claim C2, amended: `set(get())` fires no notification provided the
cast leaves the current value fixed and re-validation yields the same
validity as currently stored; the stored value and validity are then
unchanged.  (When the validity flips — as on the first revalidation
after construction, or after an attribute or sibling-property change —
listeners are notified even though the value is unchanged; that is
exactly the purpose of `revalidate()`.) -/
theorem C2_set_get_noop_when_validity_stable
    (cast : Cast) (validate : Validate) (pv : PropertyValue)
    (hcast : cast pv.attributes pv.value = pv.value)
    (hvalid : validate pv.attributes pv.value = pv.valid) :
    (PropertyValue.set cast validate pv pv.value).events = [] ∧
    ((PropertyValue.set cast validate pv pv.value).state).value = pv.value ∧
    ((PropertyValue.set cast validate pv pv.value).state).valid = pv.valid := by
  unfold PropertyValue.set
  simp only [hcast, hvalid]
  by_cases h : (!pv.valid && !pv.allowInvalid) = true
  · simp [h, PropertyValue.SetResult.events, PropertyValue.SetResult.state]
  · simp [h, PropertyValue.SetResult.events, PropertyValue.SetResult.state]

theorem C2_set_get_noop_when_validity_stable_witness :
    castId pvDemo.attributes pvDemo.value = pvDemo.value ∧
    validateTrue pvDemo.attributes pvDemo.value = pvDemo.valid ∧
    (PropertyValue.set castId validateTrue pvDemo pvDemo.value).events = [] :=
  ⟨rfl, rfl,
    (C2_set_get_noop_when_validity_stable castId validateTrue pvDemo
      rfl rfl).1⟩

/-- Claim C10: `setAttribute` on an attribute that already holds a
value `==`-equal to the new one returns without notifying attribute
listeners and without revalidating, leaving the cell unchanged; and
`PropertyBase.setConstraint` with an unchanged value — on an instance
or on the shared defaults — performs no notification and no state
change. -/
theorem C10_unchanged_attribute_constraint_noop
    (cast : Cast) (validate : Validate) :
    (∀ (pv : PropertyValue) (name : String) (v : Option Int),
      getAtt pv.attributes name = some v →
      PropertyValue.setAttribute cast validate pv name v
        = ⟨pv, [], false, [], false⟩) ∧
    (∀ (pv : PropertyValue) (c : String) (w : Option Int),
      getAtt pv.attributes c = some w →
      setConstraint cast validate (some pv) [] c w
        = .ok ⟨some pv, [], [], false⟩) ∧
    (∀ (defaults : Attributes) (c : String) (w : Option Int),
      getAtt defaults c = some w →
      setConstraint cast validate none defaults c w
        = .ok ⟨none, defaults, [], false⟩) := by
  refine ⟨?_, ?_, ?_⟩
  · intro pv name v h
    unfold PropertyValue.setAttribute
    rw [h, storeAtt_self pv.attributes name v h]
    simp
  · intro pv c w h
    unfold setConstraint
    simp [h]
  · intro defaults c w h
    unfold setConstraint
    simp [h]

theorem C10_unchanged_attribute_constraint_noop_witness :
    getAtt pvDemo.attributes "minval" = some (some 1) ∧
    PropertyValue.setAttribute castId validateTrue pvDemo "minval" (some 1)
      = ⟨pvDemo, [], false, [], false⟩ ∧
    setConstraint castId validateTrue (some pvDemo) [] "minval" (some 1)
      = .ok ⟨some pvDemo, [], [], false⟩ ∧
    setConstraint castId validateTrue none [("default", none)] "default" none
      = .ok ⟨none, [("default", none)], [], false⟩ := by
  have h := C10_unchanged_attribute_constraint_noop castId validateTrue
  exact ⟨by decide,
    h.1 pvDemo "minval" (some 1) (by decide),
    h.2.1 pvDemo "minval" (some 1) (by decide),
    h.2.2 [("default", none)] "default" none (by decide)⟩

/-! ## PropertyValueList (src/props/properties_value.py)

A `PropertyValueList` holds one `PropertyValue` per item.  Here an item
is its identity (`id`, standing for the Python object identity of the
item `PropertyValue`), its value, its notification flag, and the names
of the listeners registered on it.  The list as a whole carries the
list-level counterparts, plus the shared `PropertyValue.queue` (a
`CallQueue` with `skipDuplicates=True`) and the trace of executed
listener callbacks.  The claims under study concern `List(Int)`-style
properties: item casts are the identity and the item and list
validators always succeed, so item validity is constant and the list
validity recomputes to `true` on every `PropertyValue.set` (the list's
`valid` field is still tracked, since `set`'s change test compares it).
The listeners modelled here are passive observers — they do not enqueue
further work — so the drain environment is `passiveEnv`. -/

structure Item where
  id           : Nat
  value        : Int
  notification : Bool
  listeners    : List String
deriving DecidableEq, Repr

instance : Inhabited Item := ⟨⟨0, 0, true, []⟩⟩

structure PropertyValueList where
  items         : List Item
  nextId        : Nat
  valid         : Bool
  notification  : Bool
  listListeners : List String
  cq            : CallQueue
  trace         : List String
deriving DecidableEq, Repr

/-- Environment of callbacks that enqueue nothing. -/
def passiveEnv : String → List String := fun _ => []

namespace PropertyValueList

/-- Submit a batch of listener call names to the shared queue
(`PropertyValue.queue.callAll`) and record what the drain executed.
The fuel passed is always sufficient because no callback spawns. -/
def runCallAll (s : PropertyValueList) (names : List String) :
    PropertyValueList :=
  let r := CallQueue.callAll passiveEnv (s.cq.queue.length + names.length + 1)
    s.cq (names.map (Call.mk · true))
  { s with cq := r.1, trace := s.trace ++ r.2 }

/-- List-level `notify` (the `bindable`-patched notify with no bound
property values falls through to `_orig_notify`): when notification is
enabled, submit the list-level listeners to the queue. -/
def listNotify (s : PropertyValueList) : PropertyValueList :=
  if !s.notification then s
  else runCallAll s s.listListeners

/-- `notify` on the item `PropertyValue` at `idx`: when the item's
notification is enabled, submit its listeners to the queue, then inform
the parent list (`_listPVChanged`), which re-raises a list-level
notification if list-level notification is enabled. -/
def itemNotify (s : PropertyValueList) (idx : Nat) : PropertyValueList :=
  let item := s.items.getD idx default
  if !item.notification then s
  else
    let s1 := runCallAll s item.listeners
    listNotify s1

/-- `PropertyValue.set(self, propVals)` on the list object itself (the
path used by `insert`/`extend`/`reorder`/`__delitem__`): store the new
item list, recompute the list validity (always `true` for the modelled
always-succeeding list validator), and fire a list-level notification
iff the `(value, valid)` pair changed — value comparison is elementwise
item-value equality, exactly Python's `==` on lists of `PropertyValue`
objects. -/
def listSet (s : PropertyValueList) (newItems : List Item) :
    PropertyValueList :=
  let oldVals := s.items.map (·.value)
  let newVals := newItems.map (·.value)
  let valid := true
  let changed := (valid != s.valid) || !(newVals == oldVals)
  let s1 := { s with items := newItems, valid := valid }
  if changed then listNotify s1 else s1

/-- `PropertyValueList.__newItem` repeated over a list of values: new
item `PropertyValue` objects get fresh identities and no listeners. -/
def mkItems : Nat → List Int → List Item
  | _, [] => []
  | n, v :: vs => ⟨n, v, true, []⟩ :: mkItems (n + 1) vs

/-- `PropertyValueList.extend`: append freshly constructed items and
run `PropertyValue.set` on the result. -/
def extend (s : PropertyValueList) (values : List Int) : PropertyValueList :=
  let fresh := mkItems s.nextId values
  listSet { s with nextId := s.nextId + values.length } (s.items ++ fresh)

/-- The index list produced by `range(*key.indices(len(self)))` for a
simple non-negative slice `[start:stop]`. -/
def sliceIndices (n start stop : Nat) : List Nat :=
  (List.range n).filter (fun i => decide (start ≤ i ∧ i < stop))

/-- The per-item update loop of `__setitem__`: each targeted item
`PropertyValue` is `set` in place with its notification temporarily
disabled and restored (net effect: only the value changes), and
`changedVals[idx]` records whether the item's new value differs from
its pre-assignment value. -/
def setLoop : List Item → List Bool → List Int → List (Nat × Int) →
    List Item × List Bool
  | items, changedVals, _, [] => (items, changedVals)
  | items, changedVals, oldVals, (idx, val) :: rest =>
    let item := items.getD idx default
    let items' := items.set idx { item with value := val }
    let changed := !(val == oldVals.getD idx 0)
    setLoop items' (changedVals.set idx changed) oldVals rest

/-- The notification phase of `__setitem__`: if any value changed, one
explicit list-level notification, then each changed item's own
`notify()` (which in turn re-enters `_listPVChanged`). -/
def notifyPhase (s : PropertyValueList) (indices : List Nat)
    (changedVals : List Bool) : PropertyValueList :=
  if changedVals.any (· = true) then
    let s1 := listNotify s
    indices.foldl
      (fun acc idx =>
        if changedVals.getD idx false then itemNotify acc idx else acc) s1
  else s

/-- `PropertyValueList.__setitem__` for a slice key `[start:stop]`.
A slice covering neither the whole list nor exactly `len(values)`
raises `IndexError`.  A whole-list slice with a different number of
values destroys and recreates every item (notification disabled around
the `del self[:]`, then `extend`).  Otherwise the items are updated in
place and the notification phase runs. -/
def setitemSlice (s : PropertyValueList) (start stop : Nat)
    (values : List Int) : Except String PropertyValueList :=
  let n := s.items.length
  let indices := sliceIndices n start stop
  if indices.length ≠ n ∧ indices.length ≠ values.length then
    .error "IndexError"
  else if indices.length = n ∧ indices.length ≠ values.length then
    let notifState := s.notification
    let s1 := { s with notification := false }
    let s2 := listSet s1 []
    let s3 := { s2 with notification := notifState }
    .ok (extend s3 values)
  else
    let oldVals := s.items.map (·.value)
    let r := setLoop s.items (List.replicate n false) oldVals
      (indices.zip values)
    let s1 := { s with items := r.1 }
    .ok (notifyPhase s1 indices r.2)

/-- `PropertyValueList.reorder`: `idxs` must sort to exactly
`range(len(self))` (otherwise `ValueError` is raised before anything is
mutated); the identity permutation returns immediately, skipping
`PropertyValue.set` and hence any notification; any other valid
permutation re-stores the same item `PropertyValue` objects in the
permuted order via `PropertyValue.set`. -/
def reorder (s : PropertyValueList) (idxs : List Nat) :
    Except String PropertyValueList :=
  if List.insertionSort (· ≤ ·) idxs ≠ List.range s.items.length then
    .error "ValueError"
  else if idxs = List.range s.items.length then
    .ok s
  else
    .ok (listSet s (idxs.map (fun i => s.items.getD i default)))

/-- The components of the list state that the notification machinery
never touches (everything except the queue and the trace). -/
def core (s : PropertyValueList) :
    List Item × Nat × Bool × Bool × List String :=
  (s.items, s.nextId, s.valid, s.notification, s.listListeners)

theorem runCallAll_core (s : PropertyValueList) (names : List String) :
    core (runCallAll s names) = core s := rfl

theorem listNotify_core (s : PropertyValueList) :
    core (listNotify s) = core s := by
  unfold listNotify
  split
  · rfl
  · exact runCallAll_core s s.listListeners

theorem itemNotify_core (s : PropertyValueList) (idx : Nat) :
    core (itemNotify s idx) = core s := by
  unfold itemNotify
  dsimp only
  split
  · rfl
  · rw [listNotify_core]
    exact runCallAll_core s _

theorem listNotify_items (s : PropertyValueList) :
    (listNotify s).items = s.items :=
  congrArg (fun t => t.1) (listNotify_core s)

theorem listSet_items (s : PropertyValueList) (newItems : List Item) :
    (listSet s newItems).items = newItems := by
  unfold listSet
  dsimp only
  split
  · rw [listNotify_items]
  · rfl

theorem listSet_nextId (s : PropertyValueList) (newItems : List Item) :
    (listSet s newItems).nextId = s.nextId := by
  unfold listSet
  dsimp only
  split
  · exact congrArg (fun t => t.2.1) (listNotify_core _)
  · rfl

theorem notifyFold_core (cv : List Bool) :
    ∀ (indices : List Nat) (acc : PropertyValueList),
      core (indices.foldl
        (fun acc idx =>
          if cv.getD idx false then itemNotify acc idx else acc) acc)
        = core acc := by
  intro indices
  induction indices with
  | nil => intro acc; rfl
  | cons i t ih =>
    intro acc
    simp only [List.foldl_cons]
    rw [ih]
    split
    · exact itemNotify_core acc i
    · rfl

theorem notifyPhase_core (s : PropertyValueList) (indices : List Nat)
    (cv : List Bool) : core (notifyPhase s indices cv) = core s := by
  unfold notifyPhase
  split
  · rw [notifyFold_core, listNotify_core]
  · rfl

theorem notifyPhase_items (s : PropertyValueList) (indices : List Nat)
    (cv : List Bool) : (notifyPhase s indices cv).items = s.items :=
  congrArg (fun t => t.1) (notifyPhase_core s indices cv)

theorem notifyPhase_nextId (s : PropertyValueList) (indices : List Nat)
    (cv : List Bool) : (notifyPhase s indices cv).nextId = s.nextId :=
  congrArg (fun t => t.2.1) (notifyPhase_core s indices cv)

end PropertyValueList

/-- The identity-relevant projection of an item `PropertyValue`: its
object identity, the listeners registered on it, and its notification
state (everything except the mutable value). -/
def itemIdentity (it : Item) : Nat × List String × Bool :=
  (it.id, it.listeners, it.notification)

theorem map_set_value :
    ∀ (items : List Item) (idx : Nat) (val : Int),
      (items.set idx
          { items.getD idx default with value := val }).map itemIdentity
        = items.map itemIdentity := by
  intro items
  induction items with
  | nil => intro idx val; rfl
  | cons a t ih =>
    intro idx val
    cases idx with
    | zero => rfl
    | succ idx =>
      simp only [List.getD_cons_succ, List.set_cons_succ, List.map_cons]
      rw [ih]

/-- The in-place update loop of `__setitem__` touches only item values:
identities and listeners survive. -/
theorem setLoop_identity :
    ∀ (ps : List (Nat × Int)) (items : List Item) (cv : List Bool)
      (ov : List Int),
      ((PropertyValueList.setLoop items cv ov ps).1).map itemIdentity
        = items.map itemIdentity := by
  intro ps
  induction ps with
  | nil => intro items cv ov; rfl
  | cons p rest ih =>
    intro items cv ov
    obtain ⟨idx, val⟩ := p
    rw [PropertyValueList.setLoop, ih]
    exact map_set_value items idx val

theorem mkItems_fresh :
    ∀ (vs : List Int) (n : Nat),
      ∀ it ∈ PropertyValueList.mkItems n vs,
        it.listeners = [] ∧ n ≤ it.id := by
  intro vs
  induction vs with
  | nil => intro n it h; simp [PropertyValueList.mkItems] at h
  | cons v vs ih =>
    intro n it h
    simp only [PropertyValueList.mkItems, List.mem_cons] at h
    rcases h with rfl | h
    · exact ⟨rfl, Nat.le_refl n⟩
    · have h2 := ih (n + 1) it h
      exact ⟨h2.1, Nat.le_of_succ_le h2.2⟩

theorem mkItems_values :
    ∀ (vs : List Int) (n : Nat),
      (PropertyValueList.mkItems n vs).map (·.value) = vs := by
  intro vs
  induction vs with
  | nil => intro n; rfl
  | cons v vs ih =>
    intro n
    simp only [PropertyValueList.mkItems, List.map_cons, ih]

/-- Claim C6: a slice assignment on a `PropertyValueList` that does not
change the list length mutates the existing item `PropertyValue`
objects in place — every item keeps its identity and its registered
listeners — whereas an assignment that replaces the whole list with a
different number of values destroys every existing item `PropertyValue`
and creates fresh ones (fresh identities, no listeners). -/
theorem C6_inplace_vs_replacement (s : PropertyValueList) :
    (∀ start stop values,
      (PropertyValueList.sliceIndices s.items.length start stop).length
          = values.length →
      ∃ s', PropertyValueList.setitemSlice s start stop values = .ok s' ∧
        s'.items.map itemIdentity = s.items.map itemIdentity ∧
        s'.nextId = s.nextId) ∧
    (∀ start stop values,
      (PropertyValueList.sliceIndices s.items.length start stop).length
          = s.items.length →
      (PropertyValueList.sliceIndices s.items.length start stop).length
          ≠ values.length →
      (∀ it ∈ s.items, it.id < s.nextId) →
      ∃ s', PropertyValueList.setitemSlice s start stop values = .ok s' ∧
        s'.items = PropertyValueList.mkItems s.nextId values ∧
        s'.items.map (·.value) = values ∧
        (∀ it ∈ s'.items, it.listeners = [] ∧ s.nextId ≤ it.id) ∧
        (∀ a ∈ s.items, ∀ b ∈ s'.items, b.id ≠ a.id)) := by
  constructor
  · intro start stop values hlen
    unfold PropertyValueList.setitemSlice
    rw [if_neg (by simp [hlen]), if_neg (by simp [hlen])]
    refine ⟨_, rfl, ?_, ?_⟩
    · rw [PropertyValueList.notifyPhase_items]
      exact setLoop_identity _ s.items _ _
    · rw [PropertyValueList.notifyPhase_nextId]
  · intro start stop values hn hne hinv
    unfold PropertyValueList.setitemSlice
    rw [if_neg (by simp [hn, hne]), if_pos ⟨hn, hne⟩]
    have hitems : (PropertyValueList.extend
        { PropertyValueList.listSet { s with notification := false } [] with
          notification := s.notification } values).items
        = PropertyValueList.mkItems s.nextId values := by
      unfold PropertyValueList.extend
      simp [PropertyValueList.listSet_items, PropertyValueList.listSet_nextId]
    refine ⟨_, rfl, hitems, ?_, ?_, ?_⟩
    · rw [hitems]
      exact mkItems_values values s.nextId
    · rw [hitems]
      exact mkItems_fresh values s.nextId
    · intro a ha b hb
      rw [hitems] at hb
      have hb2 := (mkItems_fresh values s.nextId b hb).2
      have ha2 := hinv a ha
      omega

/-- A two-item list state (ids 0 and 1, one listener each, one
list-level listener) used by the list witnesses and counterexample. -/
def pvlDemo : PropertyValueList :=
  { items := [⟨0, 10, true, ["M0"]⟩, ⟨1, 20, true, ["M1"]⟩]
    nextId := 2
    valid := true
    notification := true
    listListeners := ["L"]
    cq := ⟨[], true, false⟩
    trace := [] }

theorem C6_inplace_vs_replacement_witness :
    (∃ s', PropertyValueList.setitemSlice pvlDemo 0 2 [5, 20] = .ok s' ∧
      s'.items.map itemIdentity = pvlDemo.items.map itemIdentity ∧
      s'.nextId = pvlDemo.nextId) ∧
    (∃ s', PropertyValueList.setitemSlice pvlDemo 0 2 [7, 8, 9] = .ok s' ∧
      s'.items = PropertyValueList.mkItems pvlDemo.nextId [7, 8, 9] ∧
      s'.items.map (·.value) = [7, 8, 9] ∧
      (∀ it ∈ s'.items, it.listeners = [] ∧ pvlDemo.nextId ≤ it.id) ∧
      (∀ a ∈ pvlDemo.items, ∀ b ∈ s'.items, b.id ≠ a.id)) :=
  ⟨(C6_inplace_vs_replacement pvlDemo).1 0 2 [5, 20] (by decide),
   (C6_inplace_vs_replacement pvlDemo).2 0 2 [7, 8, 9] (by decide) (by decide)
     (by decide)⟩

/-- `getD` through a `map` into items, for indices in range. -/
theorem getD_map_item (f : Nat → Item) :
    ∀ (l : List Nat) (j : Nat), j < l.length →
      (l.map f).getD j default = f (l.getD j 0) := by
  intro l
  induction l with
  | nil => intro j h; simp at h
  | cons a t ih =>
    intro j h
    cases j with
    | zero => rfl
    | succ j =>
      simp only [List.map_cons, List.getD_cons_succ]
      exact ih j (by simpa using h)

/-- Claim C7: `reorder(idxs)` raises `ValueError` when `idxs` does not
sort to `range(len(self))`, and the raise happens before any mutation,
so the list is unchanged; the identity permutation returns immediately
with the state untouched (in particular, no notification: the trace and
queue are exactly as before); any other valid permutation re-stores, at
position `j`, the very item `PropertyValue` object that was previously
at position `idxs[j]`. -/
theorem C7_reorder_contract (s : PropertyValueList) :
    (∀ idxs, List.insertionSort (· ≤ ·) idxs ≠ List.range s.items.length →
      PropertyValueList.reorder s idxs = .error "ValueError") ∧
    (PropertyValueList.reorder s (List.range s.items.length) = .ok s) ∧
    (∀ idxs, List.insertionSort (· ≤ ·) idxs = List.range s.items.length →
      idxs ≠ List.range s.items.length →
      PropertyValueList.reorder s idxs
        = .ok (PropertyValueList.listSet s
            (idxs.map (fun i => s.items.getD i default))) ∧
      ∀ j, j < idxs.length →
        ((PropertyValueList.listSet s
            (idxs.map (fun i => s.items.getD i default))).items).getD j default
          = s.items.getD (idxs.getD j 0) default) := by
  refine ⟨?_, ?_, ?_⟩
  · intro idxs h
    unfold PropertyValueList.reorder
    rw [if_pos h]
  · have hsorted : List.insertionSort (· ≤ ·) (List.range s.items.length)
        = List.range s.items.length :=
      (List.sorted_le_range s.items.length).insertionSort_eq
    unfold PropertyValueList.reorder
    rw [if_neg (by simp [hsorted]), if_pos rfl]
  · intro idxs hperm hne
    unfold PropertyValueList.reorder
    rw [if_neg (by simp [hperm]), if_neg hne]
    refine ⟨rfl, ?_⟩
    intro j hj
    rw [PropertyValueList.listSet_items]
    exact getD_map_item _ idxs j hj

theorem C7_reorder_contract_witness :
    PropertyValueList.reorder pvlDemo [0, 0] = .error "ValueError" ∧
    PropertyValueList.reorder pvlDemo (List.range pvlDemo.items.length)
      = .ok pvlDemo ∧
    PropertyValueList.reorder pvlDemo [1, 0]
      = .ok (PropertyValueList.listSet pvlDemo
          ([1, 0].map (fun i => pvlDemo.items.getD i default))) ∧
    ((PropertyValueList.listSet pvlDemo
        ([1, 0].map (fun i => pvlDemo.items.getD i default))).items).getD
        0 default
      = pvlDemo.items.getD 1 default := by
  have h := C7_reorder_contract pvlDemo
  have h3 := h.2.2 [1, 0] (by decide) (by decide)
  exact ⟨h.1 [0, 0] (by decide), h.2.1, h3.1, h3.2 0 (by decide)⟩

/-! ### Queue-interaction lemmas for the list notification machinery -/

theorem pushAll_fresh_aux :
    ∀ (cs : List Call) (cq : CallQueue) (b : Bool),
      (∀ c ∈ cs, c.name ∉ cq.queuedNames) → (cs.map (·.name)).Nodup →
      cs.foldl (fun acc c =>
          ((CallQueue.push acc.1 c).1, acc.2 || (CallQueue.push acc.1 c).2))
          (cq, b)
        = ({ cq with queue := cq.queue ++ cs }, b || !cs.isEmpty) := by
  intro cs
  induction cs with
  | nil => intro cq b _ _; simp
  | cons c cs ih =>
    intro cq b hfresh hnd
    have hc : c.name ∉ cq.queuedNames := hfresh c (by simp)
    have hpush := CallQueue.push_fresh cq c hc
    simp only [List.foldl_cons, hpush]
    obtain ⟨hne, hnd2⟩ : (∀ x ∈ cs, ¬ x.name = c.name) ∧
        (cs.map (·.name)).Nodup := by
      simpa using hnd
    have hfresh2 : ∀ x ∈ cs,
        x.name ∉ ({ cq with queue := cq.queue ++ [c] } : CallQueue).queuedNames := by
      intro x hx
      have hx1 : x.name ∉ cq.queuedNames := hfresh x (by simp [hx])
      simp only [CallQueue.queuedNames, List.map_append, List.mem_append,
        List.map_cons, List.map_nil, List.mem_singleton, not_or] at *
      exact ⟨hx1, hne x hx⟩
    rw [ih _ _ hfresh2 hnd2]
    simp

theorem pushAll_fresh (cq : CallQueue) (cs : List Call)
    (hfresh : ∀ c ∈ cs, c.name ∉ cq.queuedNames)
    (hnd : (cs.map (·.name)).Nodup) :
    CallQueue.pushAll cq cs = ({ cq with queue := cq.queue ++ cs }, !cs.isEmpty) := by
  unfold CallQueue.pushAll
  rw [pushAll_fresh_aux cs cq false hfresh hnd]
  simp

/-- Pushing a call whose name is already enqueued, with
`skipDuplicates=True`, is dropped. -/
theorem push_dup (cq : CallQueue) (c : Call)
    (hsd : cq.skipDuplicates = true) (h : c.name ∈ cq.queuedNames) :
    CallQueue.push cq c = (cq, false) := by
  unfold CallQueue.push
  rw [if_pos]
  simp [hsd, h]

/-- Taking the name of a call constructed from a name is the
identity. -/
theorem hcomp_name : ((fun c : Call => c.name) ∘ fun n =>
    ({ name := n, execute := true } : Call)) = id := rfl

namespace PropertyValueList

/-- `runCallAll` on an idle queue (no drain in progress, nothing
pending): the batch executes immediately, in order, and the queue is
idle again afterwards. -/
theorem runCallAll_idle (s : PropertyValueList) (names : List String)
    (hq : s.cq.queue = []) (hc : s.cq.calling = false)
    (hnd : names.Nodup) :
    runCallAll s names = { s with trace := s.trace ++ names } := by
  obtain ⟨items, nextId, valid, notif, ll, cq, trace⟩ := s
  obtain ⟨q, sd, calling⟩ := cq
  simp only at hq hc
  subst hq hc
  unfold runCallAll
  have hcomp2 : ((fun c : Call => c.name) ∘ fun n =>
      ({ name := n, execute := true } : Call)) = id := rfl
  have hnd2 : ((names.map (Call.mk · true)).map (·.name)).Nodup := by
    rw [List.map_map, hcomp2, List.map_id]
    exact hnd
  have hfresh : ∀ c ∈ names.map (Call.mk · true),
      c.name ∉ (⟨[], sd, false⟩ : CallQueue).queuedNames := by
    intro c _
    simp [CallQueue.queuedNames]
  unfold CallQueue.callAll
  rw [pushAll_fresh _ _ hfresh hnd2]
  cases names with
  | nil => simp
  | cons x xs =>
    simp only [List.isEmpty_cons, Bool.not_false, if_true]
    unfold CallQueue.privCall
    have hexec : ∀ c ∈ (x :: xs).map (Call.mk · true),
        c.execute = true ∧ passiveEnv c.name = [] := by
      intro c hmem
      rcases List.mem_map.mp hmem with ⟨w, _, rfl⟩
      exact ⟨rfl, rfl⟩
    have hlen : ((x :: xs).map (Call.mk · true)).length
        < ([] : List Call).length + (x :: xs : List String).length + 1 := by
      simp
    have hdrain := CallQueue.drainLoop_no_spawn passiveEnv sd
      ((x :: xs).map (Call.mk · true))
      (([] : List Call).length + (x :: xs : List String).length + 1) hexec hlen
    simp only [List.nil_append] at hdrain ⊢
    rw [hdrain]
    simp [List.map_map, hcomp2]

/-- `runCallAll` while a drain is in progress higher up the stack: the
batch is only enqueued (`__call` returns immediately), nothing
executes. -/
theorem runCallAll_indrain (s : PropertyValueList) (names : List String)
    (hc : s.cq.calling = true) :
    runCallAll s names
      = { s with cq := (CallQueue.pushAll s.cq (names.map (Call.mk · true))).1 } := by
  unfold runCallAll CallQueue.callAll CallQueue.privCall
  have h1 : ((CallQueue.pushAll s.cq (names.map (Call.mk · true))).1).calling
      = true := by
    unfold CallQueue.pushAll
    rw [CallQueue.pushAll_calling]
    exact hc
  split
  · simp [h1]
  · simp

/-- List-level notify on an idle queue: the list listeners execute at
once. -/
theorem listNotify_idle (s : PropertyValueList)
    (hq : s.cq.queue = []) (hc : s.cq.calling = false)
    (hn : s.notification = true) (hll : s.listListeners.Nodup) :
    listNotify s = { s with trace := s.trace ++ s.listListeners } := by
  unfold listNotify
  rw [if_neg (by simp [hn])]
  exact runCallAll_idle s s.listListeners hq hc hll

/-- Item-level notify on an idle queue: the item's listeners execute,
then `_listPVChanged` immediately re-raises a list-level notification,
whose listeners also execute. -/
theorem itemNotify_idle (s : PropertyValueList) (idx : Nat)
    (hq : s.cq.queue = []) (hc : s.cq.calling = false)
    (hn : s.notification = true)
    (hitem : (s.items.getD idx default).notification = true)
    (hindnd : (s.items.getD idx default).listeners.Nodup)
    (hll : s.listListeners.Nodup) :
    itemNotify s idx
      = { s with trace := s.trace
          ++ ((s.items.getD idx default).listeners ++ s.listListeners) } := by
  unfold itemNotify
  dsimp only
  rw [if_neg (by rw [hitem]; simp)]
  rw [runCallAll_idle s _ hq hc hindnd]
  rw [listNotify_idle
    { s with trace := s.trace ++ (s.items.getD idx default).listeners }
    hq hc hn hll]
  simp [List.append_assoc]

/-- Every position of an item list whose members all have enabled
notification and duplicate-free listeners yields (via `getD`) an item
with those same properties. -/
theorem getD_item_props (items : List Item) (i : Nat)
    (h : ∀ it ∈ items, it.notification = true ∧ it.listeners.Nodup) :
    (items.getD i default).notification = true ∧
    (items.getD i default).listeners.Nodup := by
  by_cases hi : i < items.length
  · rw [List.getD_eq_getElem items default hi]
    exact h _ (List.getElem_mem hi)
  · rw [List.getD_eq_default items default (Nat.le_of_not_lt hi)]
    exact ⟨rfl, List.nodup_nil⟩

/-- The per-changed-item notification loop of `__setitem__`, on an idle
queue: for each index flagged as changed, the item's listeners execute
followed by the list-level listeners (via `_listPVChanged`). -/
theorem notifyFold_idle (cv : List Bool) :
    ∀ (indices : List Nat) (acc : PropertyValueList),
      acc.cq.queue = [] → acc.cq.calling = false → acc.notification = true →
      (∀ it ∈ acc.items, it.notification = true ∧ it.listeners.Nodup) →
      acc.listListeners.Nodup →
      indices.foldl
          (fun a idx => if cv.getD idx false then itemNotify a idx else a) acc
        = { acc with trace := acc.trace
            ++ ((indices.filter (fun idx => cv.getD idx false)).flatMap
              (fun idx => (acc.items.getD idx default).listeners
                ++ acc.listListeners)) } := by
  intro indices
  induction indices with
  | nil => intro acc _ _ _ _ _; simp
  | cons i t ih =>
    intro acc hq hc hn hitems hll
    simp only [List.foldl_cons]
    by_cases hcv : cv.getD i false = true
    · rw [if_pos hcv]
      have hprops := getD_item_props acc.items i hitems
      rw [itemNotify_idle acc i hq hc hn hprops.1 hprops.2 hll]
      rw [ih { acc with trace := acc.trace
          ++ ((acc.items.getD i default).listeners ++ acc.listListeners) }
        hq hc hn hitems hll]
      rw [List.filter_cons, if_pos hcv, List.flatMap_cons]
      simp [List.append_assoc]
    · rw [if_neg (by simpa using hcv)]
      rw [ih acc hq hc hn hitems hll]
      rw [List.filter_cons, if_neg (by simpa using hcv)]

/-- A single push whose name is already enqueued (`skipDuplicates`) is
dropped entirely. -/
theorem pushAll_dup_single (cq : CallQueue) (c : Call)
    (hsd : cq.skipDuplicates = true) (h : c.name ∈ cq.queuedNames) :
    CallQueue.pushAll cq [c] = (cq, false) := by
  unfold CallQueue.pushAll
  simp [push_dup cq c hsd h]

/-- List-level notify while a drain is in progress: the listeners are
only enqueued. -/
theorem listNotify_indrain (s : PropertyValueList)
    (hc : s.cq.calling = true) (hn : s.notification = true) :
    listNotify s
      = { s with cq := (CallQueue.pushAll s.cq
          (s.listListeners.map (Call.mk · true))).1 } := by
  unfold listNotify
  rw [if_neg (by simp [hn])]
  exact runCallAll_indrain s s.listListeners hc

/-- List-level notify while a drain is in progress, when the single
list listener is already pending on the queue: the duplicate is
skipped, leaving the state untouched. -/
theorem listNotify_indrain_dup (s : PropertyValueList) (L : String)
    (hc : s.cq.calling = true) (hsd : s.cq.skipDuplicates = true)
    (hn : s.notification = true) (hL : s.listListeners = [L])
    (hLq : L ∈ s.cq.queuedNames) :
    listNotify s = s := by
  rw [listNotify_indrain s hc hn]
  have hdrop : (CallQueue.pushAll s.cq
      (s.listListeners.map (Call.mk · true))).1 = s.cq := by
    rw [hL]
    simp only [List.map_cons, List.map_nil]
    rw [pushAll_dup_single s.cq (Call.mk L true) hsd hLq]
  rw [hdrop]

/-- Item-level notify while a drain is in progress, with the single
list listener already pending: the item's listeners are enqueued behind
the queue, and the re-raised list-level notification is dropped as a
duplicate. -/
theorem itemNotify_indrain (s : PropertyValueList) (idx : Nat) (L : String)
    (hc : s.cq.calling = true) (hsd : s.cq.skipDuplicates = true)
    (hn : s.notification = true) (hL : s.listListeners = [L])
    (hLq : L ∈ s.cq.queuedNames)
    (hitem : (s.items.getD idx default).notification = true)
    (hndit : (s.items.getD idx default).listeners.Nodup)
    (hfresh : ∀ m ∈ (s.items.getD idx default).listeners,
      m ∉ s.cq.queuedNames) :
    itemNotify s idx
      = { s with cq := { s.cq with queue := s.cq.queue
          ++ (s.items.getD idx default).listeners.map (Call.mk · true) } } := by
  unfold itemNotify
  dsimp only
  rw [if_neg (by rw [hitem]; simp)]
  rw [runCallAll_indrain s _ hc]
  have hf : ∀ c ∈ ((s.items.getD idx default).listeners).map (Call.mk · true),
      c.name ∉ s.cq.queuedNames := by
    intro c hmem
    rcases List.mem_map.mp hmem with ⟨m, hm, rfl⟩
    exact hfresh m hm
  have hcomp2 : ((fun c : Call => c.name) ∘ fun n =>
      ({ name := n, execute := true } : Call)) = id := rfl
  have hnd2 : ((((s.items.getD idx default).listeners).map
      (Call.mk · true)).map (·.name)).Nodup := by
    rw [List.map_map, hcomp2, List.map_id]
    exact hndit
  rw [pushAll_fresh s.cq _ hf hnd2]
  have hLq2 : L ∈ ({ s with cq := { s.cq with queue := s.cq.queue
      ++ ((s.items.getD idx default).listeners).map (Call.mk · true) } }
        : PropertyValueList).cq.queuedNames := by
    simp only [CallQueue.queuedNames, List.map_append, List.mem_append]
    exact Or.inl hLq
  exact listNotify_indrain_dup _ L hc hsd hn hL hLq2

/-- The per-changed-item notification loop of `__setitem__`, while a
drain is in progress and the single list listener is already pending:
each changed item's listeners are appended to the queue in order, and
every re-raised list-level notification is dropped as a duplicate. -/
theorem notifyFold_indrain (cv : List Bool) (L : String) :
    ∀ (indices : List Nat) (acc : PropertyValueList),
      acc.cq.calling = true → acc.cq.skipDuplicates = true →
      acc.notification = true → acc.listListeners = [L] →
      L ∈ acc.cq.queuedNames →
      (∀ it ∈ acc.items, it.notification = true ∧ it.listeners.Nodup) →
      ((indices.filter (fun idx => cv.getD idx false)).flatMap
        (fun idx => (acc.items.getD idx default).listeners)).Nodup →
      (∀ m ∈ (indices.filter (fun idx => cv.getD idx false)).flatMap
          (fun idx => (acc.items.getD idx default).listeners),
        m ∉ acc.cq.queuedNames) →
      indices.foldl
          (fun a idx => if cv.getD idx false then itemNotify a idx else a) acc
        = { acc with cq := { acc.cq with queue := acc.cq.queue
            ++ ((indices.filter (fun idx => cv.getD idx false)).flatMap
              (fun idx =>
                (acc.items.getD idx default).listeners)).map (Call.mk · true) } }
      := by
  intro indices
  induction indices with
  | nil =>
    intro acc _ _ _ _ _ _ _ _
    simp
  | cons i t ih =>
    intro acc hc hsd hn hL hLq hitems hnd hfresh
    simp only [List.foldl_cons]
    by_cases hcv : cv.getD i false = true
    · rw [if_pos hcv]
      rw [List.filter_cons, if_pos hcv, List.flatMap_cons] at hnd hfresh ⊢
      obtain ⟨hnd1, hnd2, hdisj⟩ := List.nodup_append.mp hnd
      have hprops := getD_item_props acc.items i hitems
      have hfresh1 : ∀ m ∈ (acc.items.getD i default).listeners,
          m ∉ acc.cq.queuedNames := by
        intro m hm
        exact hfresh m (List.mem_append.mpr (Or.inl hm))
      rw [itemNotify_indrain acc i L hc hsd hn hL hLq hprops.1 hnd1 hfresh1]
      rw [ih { acc with cq := { acc.cq with queue := acc.cq.queue
          ++ ((acc.items.getD i default).listeners).map (Call.mk · true) } }
        hc hsd hn hL
        (by
          simp only [CallQueue.queuedNames, List.map_append, List.mem_append]
          exact Or.inl hLq)
        hitems hnd2
        (by
          intro m hm
          simp only [CallQueue.queuedNames, List.map_append, List.mem_append,
            not_or]
          refine ⟨hfresh m (List.mem_append.mpr (Or.inr hm)), ?_⟩
          intro hcontra
          rw [List.map_map, hcomp_name, List.map_id] at hcontra
          exact hdisj hcontra hm)]
      simp [List.append_assoc]
    · rw [if_neg (by simpa using hcv)]
      rw [List.filter_cons, if_neg (by simpa using hcv)] at hnd hfresh ⊢
      exact ih acc hc hsd hn hL hLq hitems hnd hfresh

end PropertyValueList

/-- The `(updated items, changedVals)` pair computed by the in-place
branch of `__setitem__` for the slice `[start:stop]`. -/
def sliceUpdate (s : PropertyValueList) (start stop : Nat)
    (values : List Int) : List Item × List Bool :=
  PropertyValueList.setLoop s.items (List.replicate s.items.length false)
    (s.items.map (·.value))
    ((PropertyValueList.sliceIndices s.items.length start stop).zip values)

/-- The indices of the slice whose item value actually changed. -/
def sliceChangedIdxs (s : PropertyValueList) (start stop : Nat)
    (values : List Int) : List Nat :=
  (PropertyValueList.sliceIndices s.items.length start stop).filter
    (fun idx => (sliceUpdate s start stop values).2.getD idx false)

/-- Item properties other than the value transfer along an
`itemIdentity`-preserving update. -/
theorem item_props_transfer {l1 l2 : List Item}
    (h : l1.map itemIdentity = l2.map itemIdentity)
    (h2 : ∀ it ∈ l2, it.notification = true ∧ it.listeners.Nodup) :
    ∀ it ∈ l1, it.notification = true ∧ it.listeners.Nodup := by
  intro it hit
  have hmem : itemIdentity it ∈ l2.map itemIdentity := by
    rw [← h]
    exact List.mem_map_of_mem itemIdentity hit
  rcases List.mem_map.mp hmem with ⟨y, hy, hyeq⟩
  obtain ⟨-, hl, hnn⟩ : y.id = it.id ∧ y.listeners = it.listeners ∧
      y.notification = it.notification := by
    simpa [itemIdentity, Prod.ext_iff] using hyeq
  have h2y := h2 y hy
  rw [← hl, ← hnn]
  exact h2y

/-- Counting the list-listener name over the per-changed-item blocks:
one occurrence per block. -/
theorem count_flatMap_block (L : String) (g : Nat → List String) :
    ∀ (F : List Nat), (∀ i ∈ F, L ∉ g i) →
      ((F.flatMap (fun i => g i ++ [L])).count L) = F.length := by
  intro F
  induction F with
  | nil => intro _; rfl
  | cons i t ih =>
    intro h
    rw [List.flatMap_cons, List.count_append, List.count_append]
    have h0 : (g i).count L = 0 := List.count_eq_zero.mpr (h i (by simp))
    rw [h0, ih (fun j hj => h j (by simp [hj]))]
    simp [List.count_cons]
    omega

/-- The notification phase of a changing in-place slice assignment, run
outside a drain: list listeners first, then for each changed item its
listeners followed by the list listeners again. -/
theorem notifyPhase_idle_run (s : PropertyValueList) (r1 : List Item)
    (cv : List Bool) (indices : List Nat)
    (hq : s.cq.queue = []) (hc : s.cq.calling = false)
    (hn : s.notification = true) (hll : s.listListeners.Nodup)
    (hitems1 : ∀ it ∈ r1, it.notification = true ∧ it.listeners.Nodup)
    (hany : cv.any (· = true) = true) :
    PropertyValueList.notifyPhase { s with items := r1 } indices cv
      = { s with
          items := r1,
          trace := s.trace ++ s.listListeners
            ++ ((indices.filter (fun idx => cv.getD idx false)).flatMap
              (fun idx => (r1.getD idx default).listeners
                ++ s.listListeners)) } := by
  unfold PropertyValueList.notifyPhase
  rw [if_pos hany]
  dsimp only
  rw [PropertyValueList.listNotify_idle { s with items := r1 } hq hc hn hll]
  rw [PropertyValueList.notifyFold_idle cv indices
    { s with items := r1, trace := s.trace ++ s.listListeners }
    hq hc hn hitems1 hll]

/-- The notification phase of a changing in-place slice assignment, run
while a drain is in progress, with a single not-yet-queued list
listener: the queue gains the list listener once, then the changed
items' listeners; the re-raised list-level notifications are dropped as
duplicates. -/
theorem notifyPhase_indrain_run (s : PropertyValueList) (r1 : List Item)
    (cv : List Bool) (indices : List Nat) (L : String)
    (hc : s.cq.calling = true) (hsd : s.cq.skipDuplicates = true)
    (hn : s.notification = true) (hL : s.listListeners = [L])
    (hLnot : L ∉ s.cq.queuedNames)
    (hitems1 : ∀ it ∈ r1, it.notification = true ∧ it.listeners.Nodup)
    (hnd : ((indices.filter (fun idx => cv.getD idx false)).flatMap
      (fun idx => (r1.getD idx default).listeners)).Nodup)
    (hfresh : ∀ m ∈ (indices.filter (fun idx => cv.getD idx false)).flatMap
        (fun idx => (r1.getD idx default).listeners),
      m ∉ s.cq.queuedNames ∧ m ≠ L)
    (hany : cv.any (· = true) = true) :
    PropertyValueList.notifyPhase { s with items := r1 } indices cv
      = { s with
          items := r1,
          cq := { s.cq with queue := s.cq.queue ++ (Call.mk L true ::
            ((indices.filter (fun idx => cv.getD idx false)).flatMap
              (fun idx =>
                (r1.getD idx default).listeners)).map (Call.mk · true)) } }
      := by
  unfold PropertyValueList.notifyPhase
  rw [if_pos hany]
  dsimp only
  rw [PropertyValueList.listNotify_indrain { s with items := r1 } hc hn]
  dsimp only
  have hpush : (CallQueue.pushAll s.cq
      (s.listListeners.map (Call.mk · true))).1
      = { s.cq with queue := s.cq.queue ++ [Call.mk L true] } := by
    rw [hL]
    simp only [List.map_cons, List.map_nil]
    rw [pushAll_fresh s.cq [Call.mk L true]
      (by
        intro c hmem
        simp only [List.mem_singleton] at hmem
        subst hmem
        exact hLnot)
      (by simp)]
  rw [hpush]
  rw [PropertyValueList.notifyFold_indrain cv L indices
    { s with items := r1
             cq := { s.cq with queue := s.cq.queue ++ [Call.mk L true] } }
    hc hsd hn hL
    (by
      simp only [CallQueue.queuedNames, List.map_append, List.mem_append]
      exact Or.inr (by simp))
    hitems1 hnd
    (by
      intro m hm
      simp only [CallQueue.queuedNames, List.map_append, List.mem_append,
        not_or]
      have hfm := hfresh m hm
      refine ⟨hfm.1, ?_⟩
      simp only [List.map_cons, List.map_nil, List.mem_singleton]
      exact hfm.2)]
  simp [List.append_assoc]

/-- Claim C5 (amended): a same-length slice assignment that changes at
least one item fires one explicit list-level notification first, then
notifies each changed item's listeners individually; each item
notification additionally re-raises a list-level notification through
`_listPVChanged`.  (a) Outside a drain everything executes at once, so
a single list-level listener runs `1 + #changed` times, not exactly
once.  (b) While a drain is in progress the re-raised list-level
notifications are dropped by `skipDuplicates`: the queue gains exactly
one list-level entry, placed before all the item-listener entries, and
nothing executes until the outer drain reaches them. -/
theorem C5_amended_slice_notification
    (s : PropertyValueList) (L : String) (start stop : Nat)
    (values : List Int)
    (hn : s.notification = true)
    (hL : s.listListeners = [L])
    (hlen : (PropertyValueList.sliceIndices s.items.length start stop).length
      = values.length)
    (hitems : ∀ it ∈ s.items, it.notification = true ∧ it.listeners.Nodup)
    (hchanged : (sliceUpdate s start stop values).2.any (· = true) = true) :
    (s.cq.queue = [] → s.cq.calling = false →
      (PropertyValueList.setitemSlice s start stop values = .ok
        { s with
          items := (sliceUpdate s start stop values).1
          trace := s.trace ++ [L]
            ++ ((sliceChangedIdxs s start stop values).flatMap (fun idx =>
              ((sliceUpdate s start stop values).1.getD idx default).listeners
                ++ [L])) }) ∧
      ((∀ idx ∈ sliceChangedIdxs s start stop values,
          L ∉ ((sliceUpdate s start stop values).1.getD idx
            default).listeners) →
        (s.trace ++ [L]
            ++ ((sliceChangedIdxs s start stop values).flatMap (fun idx =>
              ((sliceUpdate s start stop values).1.getD idx default).listeners
                ++ [L]))).count L
          = s.trace.count L + 1
            + (sliceChangedIdxs s start stop values).length)) ∧
    (s.cq.calling = true → s.cq.skipDuplicates = true →
      L ∉ s.cq.queuedNames →
      ((sliceChangedIdxs s start stop values).flatMap (fun idx =>
        ((sliceUpdate s start stop values).1.getD idx
          default).listeners)).Nodup →
      (∀ m ∈ (sliceChangedIdxs s start stop values).flatMap (fun idx =>
          ((sliceUpdate s start stop values).1.getD idx default).listeners),
        m ∉ s.cq.queuedNames ∧ m ≠ L) →
      (PropertyValueList.setitemSlice s start stop values = .ok
        { s with
          items := (sliceUpdate s start stop values).1
          cq := { s.cq with queue := s.cq.queue ++ (Call.mk L true ::
            ((sliceChangedIdxs s start stop values).flatMap (fun idx =>
              ((sliceUpdate s start stop values).1.getD idx
                default).listeners)).map (Call.mk · true)) } }) ∧
      ((s.cq.queue ++ (Call.mk L true ::
          ((sliceChangedIdxs s start stop values).flatMap (fun idx =>
            ((sliceUpdate s start stop values).1.getD idx
              default).listeners)).map (Call.mk · true))).map
                (·.name)).count L = 1) := by
  unfold sliceChangedIdxs
  unfold sliceUpdate
  unfold sliceUpdate at hchanged
  have hitems1 : ∀ it ∈ (PropertyValueList.setLoop s.items
      (List.replicate s.items.length false) (s.items.map (·.value))
      ((PropertyValueList.sliceIndices s.items.length start stop).zip
        values)).1,
      it.notification = true ∧ it.listeners.Nodup :=
    item_props_transfer (setLoop_identity _ s.items _ _) hitems
  constructor
  · intro hq hc
    constructor
    · unfold PropertyValueList.setitemSlice
      rw [if_neg (by simp [hlen]), if_neg (by simp [hlen])]
      dsimp only
      rw [notifyPhase_idle_run s _ _ _ hq hc hn
        (by rw [hL]; exact List.nodup_singleton L) hitems1 hchanged]
      rw [hL]
    · intro hnotin
      rw [List.count_append, List.count_append,
        count_flatMap_block L _ _ hnotin]
      simp [List.count_cons]
  · intro hc hsd hLnot hndM hfreshM
    constructor
    · unfold PropertyValueList.setitemSlice
      rw [if_neg (by simp [hlen]), if_neg (by simp [hlen])]
      dsimp only
      rw [notifyPhase_indrain_run s _ _ _ L hc hsd hn hL hLnot hitems1
        hndM hfreshM hchanged]
    · rw [List.map_append, List.count_append]
      have h0 : ((s.cq.queue.map (·.name)).count L) = 0 :=
        List.count_eq_zero.mpr hLnot
      rw [h0]
      simp only [List.map_cons, List.count_cons, List.map_map, hcomp_name,
        List.map_id]
      have hM0 : ((((PropertyValueList.sliceIndices s.items.length start
          stop).filter (fun idx => (PropertyValueList.setLoop s.items
            (List.replicate s.items.length false) (s.items.map (·.value))
            ((PropertyValueList.sliceIndices s.items.length start stop).zip
              values)).2.getD idx false)).flatMap (fun idx =>
          ((PropertyValueList.setLoop s.items
            (List.replicate s.items.length false) (s.items.map (·.value))
            ((PropertyValueList.sliceIndices s.items.length start stop).zip
              values)).1.getD idx default).listeners)).count L) = 0 :=
        List.count_eq_zero.mpr (fun hmem => (hfreshM L hmem).2 rfl)
      rw [hM0]
      simp

/-- Claim C5, counterexample: a top-level same-length slice assignment
on a two-item list (listener `M0` on item 0, list listener `L`) that
changes only item 0 executes `L`, then `M0`, then `L` AGAIN — the
list-level listener observes two events for one logical change, because
the item's own `notify()` re-enters the list via `_listPVChanged`. -/
theorem C5_slice_counterexample :
    (PropertyValueList.setitemSlice pvlDemo 0 2 [99, 20]).map
        (fun s => s.trace)
      = .ok ["L", "M0", "L"] ∧
    (["L", "M0", "L"].count "L" = 2) :=
  ⟨rfl, by decide⟩

/-- A copy of `pvlDemo` whose shared queue is mid-drain with one
unrelated call pending. -/
def pvlDemoBusy : PropertyValueList :=
  { pvlDemo with cq := ⟨[Call.mk "X" true], true, true⟩ }

theorem C5_amended_slice_notification_witness :
    (PropertyValueList.setitemSlice pvlDemo 0 2 [99, 20] = .ok
      { pvlDemo with
        items := (sliceUpdate pvlDemo 0 2 [99, 20]).1,
        trace := pvlDemo.trace ++ ["L"]
          ++ ((sliceChangedIdxs pvlDemo 0 2 [99, 20]).flatMap (fun idx =>
            ((sliceUpdate pvlDemo 0 2 [99, 20]).1.getD idx
              default).listeners ++ ["L"])) }) ∧
    (PropertyValueList.setitemSlice pvlDemoBusy 0 2 [99, 20] = .ok
      { pvlDemoBusy with
        items := (sliceUpdate pvlDemoBusy 0 2 [99, 20]).1,
        cq := { pvlDemoBusy.cq with
          queue := pvlDemoBusy.cq.queue ++ (Call.mk "L" true ::
            ((sliceChangedIdxs pvlDemoBusy 0 2 [99, 20]).flatMap (fun idx =>
              ((sliceUpdate pvlDemoBusy 0 2 [99, 20]).1.getD idx
                default).listeners)).map (Call.mk · true)) } }) := by
  have ha := C5_amended_slice_notification pvlDemo "L" 0 2 [99, 20]
    rfl rfl (by decide) (by decide) (by decide)
  have hb := C5_amended_slice_notification pvlDemoBusy "L" 0 2 [99, 20]
    rfl rfl (by decide) (by decide) (by decide)
  exact ⟨(ha.1 rfl rfl).1,
    (hb.2 rfl rfl (by decide) (by decide) (by decide)).1⟩

/-! ## Bindable (src/props/bindable.py)

Two scalar `PropertyValue` cells of the same declared `Int` property
type (identity cast, always-succeeding validator, default `==`
equality), which may be bound to each other.  `bindable.notify`
replaces `PropertyValue.notify`: before the original notification runs,
it pushes the new value to every bound cell with that cell's
notification disabled, re-enables it, and then calls the bound cell's
(patched) notify — the second sync attempt finds the values equal and
stops, which is what terminates the ping-pong.  A side is `true` for
cell `a`, `false` for cell `b`; `events` records which cell's listeners
were submitted to the queue (`"a"` / `"b"`).  The mutual recursion of
`set` and `notify` is bounded by explicit fuel; the claims show a small
constant fuel suffices, which is exactly the no-infinite-loop
property. -/

namespace Bindable

structure BPV where
  value        : Int
  valid        : Bool
  lastValue    : Option Int
  lastValid    : Bool
  notification : Bool
deriving DecidableEq, Repr

structure Sys where
  a      : BPV
  b      : BPV
  bound  : Bool
  events : List String
deriving DecidableEq, Repr

/-- Access one side (`true` = `a`). -/
def pvOf (s : Sys) : Bool → BPV
  | true => s.a
  | false => s.b

/-- Replace one side. -/
def setPv (s : Sys) : Bool → BPV → Sys
  | true, p => { s with a := p }
  | false, p => { s with b := p }

def sideName : Bool → String
  | true => "a"
  | false => "b"

/-- `enableNotification` / `disableNotification` on one side. -/
def setNotif (s : Sys) (side : Bool) (v : Bool) : Sys :=
  setPv s side { pvOf s side with notification := v }

/-- `PropertyValue._orig_notify`: fire the side's listeners (append an
event) unless notification is disabled. -/
def origNotify (side : Bool) (s : Sys) : Sys :=
  if (pvOf s side).notification then
    { s with events := s.events ++ [sideName side] }
  else s

mutual

/-- The `bindable.notify` replacement of `PropertyValue.notify`: sync
each bound cell that differs (disable its notification, `set` it,
restore), then notify the synced cell, then run the original notify. -/
def notify : Nat → Bool → Sys → Sys
  | 0, _, s => s
  | fuel + 1, side, s =>
    if s.bound then
      if (pvOf s side).value == (pvOf s (!side)).value then
        origNotify side s
      else
        let otherNotif := (pvOf s (!side)).notification
        let s1 := setNotif s (!side) false
        let s2 := set fuel (!side) s1 (pvOf s side).value
        let s3 := setNotif s2 (!side) otherNotif
        let s4 := notify fuel (!side) s3
        origNotify side s4
    else origNotify side s

/-- `PropertyValue.set` for an `Int` property (identity cast, validator
never raises): store the value, recompute validity, update the
last-value bookkeeping, and notify iff the `(value, valid)` pair
changed. -/
def set : Nat → Bool → Sys → Int → Sys
  | 0, _, s, _ => s
  | fuel + 1, side, s, v =>
    let p := pvOf s side
    let p1 := { p with
      lastValue := some p.value
      lastValid := p.valid
      value := v
      valid := true }
    let s1 := setPv s side p1
    let changed := (p1.valid != p1.lastValid) || !(some p1.value == p1.lastValue)
    if changed then notify fuel side s1 else s1

end

/-- `HasProperties.bindProps` (via `_bindProps`, `unbind=False`) for
`self = a`, `other = b`: copy the value from the other cell (attributes
are empty for a plain `Int` property), then record the bound pair. -/
def bindProps (fuel : Nat) (s : Sys) : Sys :=
  let s1 := set fuel true s (pvOf s false).value
  { s1 with bound := true }

/-- `HasProperties.unbindProps` (via `_bindProps`, `unbind=True`):
remove the bound pair; values are not reverted. -/
def unbindProps (s : Sys) : Sys :=
  { s with bound := false }

theorem origNotify_pvs (side : Bool) (s : Sys) :
    (origNotify side s).a = s.a ∧ (origNotify side s).b = s.b ∧
    (origNotify side s).bound = s.bound := by
  unfold origNotify
  split <;> exact ⟨rfl, rfl, rfl⟩

/-- The patched notify on an unbound system only fires the side's own
listeners: both cells are untouched. -/
theorem notify_unbound (fuel : Nat) (side : Bool) (s : Sys)
    (hb : s.bound = false) :
    (notify fuel side s).a = s.a ∧ (notify fuel side s).b = s.b ∧
    (notify fuel side s).bound = s.bound := by
  cases fuel with
  | zero => exact ⟨rfl, rfl, rfl⟩
  | succ fuel =>
    unfold notify
    rw [if_neg (by simp [hb])]
    exact origNotify_pvs side s

/-- The patched notify on a bound system whose two cells already hold
the same value, when the notifying side's notification is disabled, is
a no-op: the echo stops here. -/
theorem notify_synced_disabled (fuel : Nat) (side : Bool) (s : Sys)
    (hb : s.bound = true)
    (heq : (pvOf s side).value = (pvOf s (!side)).value)
    (hnotif : (pvOf s side).notification = false) :
    notify fuel side s = s := by
  cases fuel with
  | zero => rfl
  | succ fuel =>
    unfold notify
    rw [if_pos hb, if_pos (by simp [heq])]
    unfold origNotify
    rw [if_neg (by simp [hnotif])]

end Bindable

/-- Claim C1: after `bindProps` on two `Int` properties the two values
are equal; while bound, every assignment to either side makes the other
side equal to the assigned value — with a fixed fuel of 3 for the
set/notify recursion, which is the no-infinite-notification-loop
property, and with no exception anywhere (the model is total because an
unconstrained `Int` property's cast and validator are); and after
`unbindProps`, an assignment to one side leaves the other side's cell
completely untouched. -/
theorem C1_bind_propagate_unbind (s : Bindable.Sys) (v : Int) (side : Bool)
    (fuel : Nat) :
    (s.bound = false → 1 ≤ fuel →
      ((Bindable.bindProps fuel s).a.value
          = (Bindable.bindProps fuel s).b.value ∧
        (Bindable.bindProps fuel s).bound = true)) ∧
    (s.bound = true → s.a.value = s.b.value → 3 ≤ fuel →
      ((Bindable.set fuel side s v).a.value = v ∧
       (Bindable.set fuel side s v).b.value = v ∧
       (Bindable.set fuel side s v).bound = true)) ∧
    (Bindable.pvOf (Bindable.set fuel side (Bindable.unbindProps s) v) (!side)
      = Bindable.pvOf (Bindable.unbindProps s) (!side)) := by
  refine ⟨?_, ?_, ?_⟩
  · intro hb hf
    obtain ⟨f, rfl⟩ : ∃ f, fuel = f + 1 := ⟨fuel - 1, by omega⟩
    unfold Bindable.bindProps
    unfold Bindable.set
    dsimp only [Bindable.pvOf, Bindable.setPv]
    split
    · have h := Bindable.notify_unbound f true
        { s with a := { s.a with
            lastValue := some s.a.value
            lastValid := s.a.valid
            value := s.b.value
            valid := true } } hb
      refine ⟨?_, rfl⟩
      show (Bindable.notify f true _).a.value = (Bindable.notify f true _).b.value
      rw [h.1, h.2.1]
    · exact ⟨rfl, rfl⟩
  · intro hb hsync hf
    obtain ⟨h, rfl⟩ : ∃ h, fuel = h + 3 := ⟨fuel - 3, by omega⟩
    cases side
    · -- set on side b
      by_cases hv : v = s.b.value
      · by_cases hval : s.b.valid = true
        · simp [Bindable.set, Bindable.notify, Bindable.pvOf, Bindable.setPv,
            Bindable.setNotif, Bindable.origNotify, hb, hv, hval, hsync]
        · simp [Bindable.set, Bindable.notify, Bindable.pvOf, Bindable.setPv,
            Bindable.setNotif, Bindable.origNotify, hb, hv, hval, hsync,
            Bindable.notify_synced_disabled]
          all_goals split_ifs <;> simp_all
      · simp [Bindable.set, Bindable.notify, Bindable.pvOf, Bindable.setPv,
          Bindable.setNotif, Bindable.origNotify, hb, hv, hsync,
          Bindable.notify_synced_disabled, Ne.symm hv]
        all_goals split_ifs <;> simp_all
    · -- set on side a
      by_cases hv : v = s.a.value
      · by_cases hval : s.a.valid = true
        · simp [Bindable.set, Bindable.notify, Bindable.pvOf, Bindable.setPv,
            Bindable.setNotif, Bindable.origNotify, hb, hv, hval, hsync]
        · simp [Bindable.set, Bindable.notify, Bindable.pvOf, Bindable.setPv,
            Bindable.setNotif, Bindable.origNotify, hb, hv, hval, hsync,
            Bindable.notify_synced_disabled]
          all_goals split_ifs <;> simp_all
      · simp [Bindable.set, Bindable.notify, Bindable.pvOf, Bindable.setPv,
          Bindable.setNotif, Bindable.origNotify, hb, hv, hsync,
          Bindable.notify_synced_disabled, Ne.symm hv]
        all_goals split_ifs <;> simp_all
  · cases fuel with
    | zero => cases side <;> rfl
    | succ f =>
      cases side
      · simp only [Bool.not_false]
        unfold Bindable.unbindProps
        unfold Bindable.set
        dsimp only [Bindable.pvOf, Bindable.setPv]
        split
        · exact (Bindable.notify_unbound f false _ rfl).1
        · rfl
      · simp only [Bool.not_true]
        unfold Bindable.unbindProps
        unfold Bindable.set
        dsimp only [Bindable.pvOf, Bindable.setPv]
        split
        · exact (Bindable.notify_unbound f true _ rfl).2.1
        · rfl

/-- Two freshly constructed `Int` properties `t1.n = 0` and `t2.n = 7`,
not yet bound. -/
def sysDemo : Bindable.Sys :=
  { a := ⟨0, true, none, false, true⟩
    b := ⟨7, true, none, false, true⟩
    bound := false
    events := [] }

/-- `t1.bindProps('n', t2)` on `sysDemo`. -/
def sysBound : Bindable.Sys := Bindable.bindProps 3 sysDemo

/-- The concrete scenario of claim C1: bind, then `t1.n = 5`,
`t2.n = 9`, `t1.n = 2` (three alternating round trips), then unbind and
`t1.n = 1` with `t2.n` staying `9`... here the third trip sets 2 and
the post-unbind write leaves the other side at its last synced value. -/
theorem C1_bind_propagate_unbind_witness :
    (sysBound.a.value = sysBound.b.value ∧ sysBound.bound = true) ∧
    ((Bindable.set 3 true sysBound 5).a.value = 5 ∧
      (Bindable.set 3 true sysBound 5).b.value = 5) ∧
    ((Bindable.set 3 false (Bindable.set 3 true sysBound 5) 9).a.value = 9 ∧
      (Bindable.set 3 false (Bindable.set 3 true sysBound 5) 9).b.value = 9) ∧
    ((Bindable.set 3 true
        (Bindable.set 3 false (Bindable.set 3 true sysBound 5) 9) 2).a.value
        = 2 ∧
      (Bindable.set 3 true
        (Bindable.set 3 false (Bindable.set 3 true sysBound 5) 9) 2).b.value
        = 2) ∧
    ((Bindable.set 3 true (Bindable.unbindProps
        (Bindable.set 3 true
          (Bindable.set 3 false (Bindable.set 3 true sysBound 5) 9) 2))
        1).a.value = 1 ∧
      (Bindable.set 3 true (Bindable.unbindProps
        (Bindable.set 3 true
          (Bindable.set 3 false (Bindable.set 3 true sysBound 5) 9) 2))
        1).b.value = 2) := by
  have h0 := (C1_bind_propagate_unbind sysDemo 0 true 3).1 rfl (by decide)
  have h1 := (C1_bind_propagate_unbind sysBound 5 true 3).2.1
    (by decide) (by decide) (by decide)
  have h2 := (C1_bind_propagate_unbind (Bindable.set 3 true sysBound 5)
    9 false 3).2.1 (by decide) (by decide) (by decide)
  have h3 := (C1_bind_propagate_unbind
    (Bindable.set 3 false (Bindable.set 3 true sysBound 5) 9)
    2 true 3).2.1 (by decide) (by decide) (by decide)
  have h4 := (C1_bind_propagate_unbind
    (Bindable.set 3 true
      (Bindable.set 3 false (Bindable.set 3 true sysBound 5) 9) 2)
    1 true 3).2.2
  refine ⟨h0, ⟨h1.1, h1.2.1⟩, ⟨h2.1, h2.2.1⟩, ⟨h3.1, h3.2.1⟩,
    by decide, ?_⟩
  have hb := congrArg Bindable.BPV.value h4
  exact hb.trans (by decide)

/-! ## suppress / suppressAll (src/props/suppress.py)

Of the `HasProperties`-level notification plumbing that the suppress
module calls, `src/props/properties.py` defines
`enableNotification(propName)` (line 682),
`disableNotification(propName)` (line 687) and `notify(propName)`
(line 692), each delegating to the named property's `PropertyValue`,
whose own `enableNotification` / `disableNotification` /
`getNotificationState` / `setNotificationState` are at
`properties_value.py` lines 329–354.  The remaining calls that
`suppress.py` makes — `getNotificationState(propName)`,
`setNotificationState(propName, state)`, `disableAllNotification()`
and `enableAllNotification()` on the `HasProperties` instance — have
no definition in the `properties.py` revision under `src/`; those four
are modelled from the spec below, as the same per-property delegations
to the `PropertyValue`-level methods that do exist.
A `HProp` is one property's cell: its name, its `Int` value and its
notification flag (the property kind is a plain `Int` property, so
validation never fails and a write notifies iff the value changes); the
event list records which properties' listeners fired, in order. -/

structure HProp where
  name         : String
  value        : Int
  notification : Bool
deriving DecidableEq, Repr

/-- `PropertyValue.set` on the named property of a property list:
update the stored value (first property of that name) and report
whether the change notification fired (value changed and notification
enabled). -/
def writeList : List HProp → String → Int → List HProp × Bool
  | [], _, _ => ([], false)
  | q :: rest, p, v =>
    if q.name = p then
      ({ q with value := v } :: rest, (!(q.value == v)) && q.notification)
    else
      let r := writeList rest p v
      (q :: r.1, r.2)

/-- `PropertyValue.getNotificationState` of the named property
(`false` when no such property exists). -/
def getNotif : List HProp → String → Bool
  | [], _ => false
  | q :: rest, p => if q.name = p then q.notification else getNotif rest p

/-- `PropertyValue.setNotificationState` on the named property. -/
def setNotifList : List HProp → String → Bool → List HProp
  | [], _, _ => []
  | q :: rest, p, b =>
    if q.name = p then { q with notification := b } :: rest
    else q :: setNotifList rest p b

structure HasPropertiesState where
  props  : List HProp
  events : List String
deriving DecidableEq, Repr

namespace HasPropertiesState

/-- A property write through the descriptor (`PropertyBase.__set__` →
`PropertyValue.set`). -/
def write (hp : HasPropertiesState) (p : String) (v : Int) :
    HasPropertiesState :=
  let r := writeList hp.props p v
  { props := r.1, events := hp.events ++ if r.2 then [p] else [] }

/-- A sequence of property writes (the body of a `with` block). -/
def runBody (hp : HasPropertiesState) (body : List (String × Int)) :
    HasPropertiesState :=
  body.foldl (fun acc w => write acc w.1 w.2) hp

/-- Modelled from the spec: `HasProperties.getNotificationState(propName)`
has no definition in the `properties.py` revision under `src/`; like
the wrappers that are there (`disableNotification`, properties.py line
687), it delegates to the named property's `PropertyValue`, whose
`getNotificationState` is `properties_value.py` line 344. -/
def getNotificationState (hp : HasPropertiesState) (p : String) : Bool :=
  getNotif hp.props p

/-- Modelled from the spec:
`HasProperties.setNotificationState(propName, state)` has no definition
in the `properties.py` revision under `src/`; it delegates to the named
property's `PropertyValue.setNotificationState`
(`properties_value.py` line 351: enable when the value is truthy,
disable otherwise). -/
def setNotificationState (hp : HasPropertiesState) (p : String) (b : Bool) :
    HasPropertiesState :=
  { hp with props := setNotifList hp.props p b }

/-- `HasProperties.disableNotification(propName)`
(`src/props/properties.py` line 687):
`self.getPropVal(propName).disableNotification()`, which clears the
named property's `__notification` flag (`properties_value.py` line
336) — the same effect as setting its notification state to `False`. -/
def disableNotification (hp : HasPropertiesState) (p : String) :
    HasPropertiesState :=
  setNotificationState hp p false

/-- Modelled from the spec: `HasProperties.disableAllNotification()`
has no definition in the `properties.py` revision under `src/`; it
disables notification on every property. -/
def disableAllNotification (hp : HasPropertiesState) : HasPropertiesState :=
  { hp with props := hp.props.map (fun q => { q with notification := false }) }

/-- Modelled from the spec: `HasProperties.enableAllNotification()`
has no definition in the `properties.py` revision under `src/`; it
enables notification on every property. -/
def enableAllNotification (hp : HasPropertiesState) : HasPropertiesState :=
  { hp with props := hp.props.map (fun q => { q with notification := true }) }

/-- `HasProperties.notify(propName)` (`src/props/properties.py` line
692): force a notification via `PropertyValue.notify`; no effect if the
property's notification is disabled. -/
def propNotify (hp : HasPropertiesState) (p : String) : HasPropertiesState :=
  if getNotif hp.props p then { hp with events := hp.events ++ [p] } else hp

/-- The `suppress` context manager of `src/props/suppress.py`: save the
notification state, disable it, run the body (`raises` selects whether
the block exits by raising after its writes), restore the saved state
in the `finally`, and on a normal exit optionally force one final
notification. -/
def suppress (hp : HasPropertiesState) (p : String)
    (body : List (String × Int)) (raises notifyFlag : Bool) :
    HasPropertiesState :=
  let state := getNotificationState hp p
  let hp1 := disableNotification hp p
  let hp2 := runBody hp1 body
  let hp3 := setNotificationState hp2 p state
  if raises then hp3
  else if notifyFlag then propNotify hp3 p else hp3

/-- The `suppressAll` context manager of `src/props/suppress.py`:
disable notification on all properties, run the body, and in the
`finally` — on BOTH exit paths — enable notification on all
properties (its docstring: "After this function has completed,
notification will be enabled for all properties"). -/
def suppressAll (hp : HasPropertiesState) (body : List (String × Int))
    (raises : Bool) : HasPropertiesState :=
  let hp1 := disableAllNotification hp
  let hp2 := runBody hp1 body
  let hp3 := enableAllNotification hp2
  if raises then hp3 else hp3

end HasPropertiesState

theorem writeList_getNotif :
    ∀ (props : List HProp) (pw : String) (v : Int) (q : String),
      getNotif (writeList props pw v).1 q = getNotif props q := by
  intro props
  induction props with
  | nil => intro pw v q; rfl
  | cons x rest ih =>
    intro pw v q
    unfold writeList
    by_cases hx : x.name = pw
    · rw [if_pos hx]
      rfl
    · rw [if_neg hx]
      unfold getNotif
      by_cases hq : x.name = q
      · rw [if_pos hq, if_pos hq]
      · rw [if_neg hq, if_neg hq]
        exact ih pw v q

theorem writeList_fired_false :
    ∀ (props : List HProp) (p : String) (v : Int),
      getNotif props p = false → (writeList props p v).2 = false := by
  intro props
  induction props with
  | nil => intro p v _; rfl
  | cons x rest ih =>
    intro p v h
    unfold writeList
    unfold getNotif at h
    by_cases hx : x.name = p
    · rw [if_pos hx] at h ⊢
      simp [h]
    · rw [if_neg hx] at h ⊢
      exact ih p v h

theorem writeList_notifications :
    ∀ (props : List HProp) (p : String) (v : Int),
      ((writeList props p v).1).map (fun q => (q.name, q.notification))
        = props.map (fun q => (q.name, q.notification)) := by
  intro props
  induction props with
  | nil => intro p v; rfl
  | cons x rest ih =>
    intro p v
    unfold writeList
    by_cases hx : x.name = p
    · rw [if_pos hx]
      rfl
    · rw [if_neg hx]
      simp only [List.map_cons, ih]

theorem setNotifList_names :
    ∀ (props : List HProp) (p : String) (b : Bool),
      ((setNotifList props p b)).map (·.name) = props.map (·.name) := by
  intro props
  induction props with
  | nil => intro p b; rfl
  | cons x rest ih =>
    intro p b
    unfold setNotifList
    split
    · rfl
    · simp only [List.map_cons, ih]

theorem getNotif_absent :
    ∀ (props : List HProp) (p : String),
      p ∉ props.map (·.name) → getNotif props p = false := by
  intro props
  induction props with
  | nil => intro p _; rfl
  | cons x rest ih =>
    intro p h
    simp only [List.map_cons, List.mem_cons, not_or] at h
    unfold getNotif
    rw [if_neg (fun hc => h.1 hc.symm)]
    exact ih p h.2

theorem setNotifList_absent :
    ∀ (props : List HProp) (p : String) (b : Bool),
      p ∉ props.map (·.name) → setNotifList props p b = props := by
  intro props
  induction props with
  | nil => intro p b _; rfl
  | cons x rest ih =>
    intro p b h
    simp only [List.map_cons, List.mem_cons, not_or] at h
    unfold setNotifList
    rw [if_neg (fun hc => h.1 hc.symm), ih p b h.2]

theorem setNotifList_getNotif_present :
    ∀ (props : List HProp) (p : String) (b : Bool),
      p ∈ props.map (·.name) →
      getNotif (setNotifList props p b) p = b := by
  intro props
  induction props with
  | nil => intro p b h; simp at h
  | cons x rest ih =>
    intro p b h
    unfold setNotifList
    by_cases hx : x.name = p
    · rw [if_pos hx]
      unfold getNotif
      rw [if_pos hx]
    · rw [if_neg hx]
      unfold getNotif
      rw [if_neg hx]
      simp only [List.map_cons, List.mem_cons] at h
      rcases h with h | h
      · exact absurd h.symm hx
      · exact ih p b h

namespace HasPropertiesState

/-- While the named property's notification is disabled, a body of
writes fires no listener of that property, and leaves its notification
disabled. -/
theorem runBody_no_target_events (p : String) :
    ∀ (body : List (String × Int)) (hp : HasPropertiesState),
      getNotif hp.props p = false →
      ∃ new, (runBody hp body).events = hp.events ++ new ∧ p ∉ new ∧
        getNotif (runBody hp body).props p = false := by
  intro body
  induction body with
  | nil => intro hp h; exact ⟨[], by simp [runBody], by simp, h⟩
  | cons w rest ih =>
    intro hp h
    obtain ⟨q, v⟩ := w
    have hpres : getNotif (write hp q v).props p = getNotif hp.props p := by
      unfold write
      exact writeList_getNotif hp.props q v p
    have hstep := ih (write hp q v) (by rw [hpres]; exact h)
    obtain ⟨new, hev, hnp, hnotif⟩ := hstep
    by_cases hq : q = p
    · subst hq
      have hf : (writeList hp.props q v).2 = false :=
        writeList_fired_false hp.props q v h
      refine ⟨new, ?_, hnp, hnotif⟩
      have : (write hp q v).events = hp.events := by
        unfold write
        dsimp only
        rw [hf]
        simp
      rw [show runBody hp ((q, v) :: rest) = runBody (write hp q v) rest
          from rfl, hev, this]
    · refine ⟨(if (writeList hp.props q v).2 then [q] else []) ++ new, ?_, ?_,
        hnotif⟩
      · rw [show runBody hp ((q, v) :: rest) = runBody (write hp q v) rest
          from rfl, hev]
        unfold write
        simp [List.append_assoc]
      · intro hmem
        rcases List.mem_append.mp hmem with hmem | hmem
        · split at hmem
          · simp only [List.mem_singleton] at hmem
            exact hq hmem.symm
          · simp at hmem
        · exact hnp hmem

end HasPropertiesState

theorem writeList_fired_false_all :
    ∀ (props : List HProp) (p : String) (v : Int),
      (∀ x ∈ props, x.notification = false) →
      (writeList props p v).2 = false := by
  intro props
  induction props with
  | nil => intro p v _; rfl
  | cons x rest ih =>
    intro p v h
    unfold writeList
    by_cases hx : x.name = p
    · rw [if_pos hx]
      simp [h x (by simp)]
    · rw [if_neg hx]
      exact ih p v (fun y hy => h y (by simp [hy]))

namespace HasPropertiesState

/-- While every property's notification is disabled, a body of writes
fires nothing at all, and leaves every property disabled. -/
theorem runBody_all_disabled :
    ∀ (body : List (String × Int)) (hp : HasPropertiesState),
      (∀ q ∈ hp.props, q.notification = false) →
      (runBody hp body).events = hp.events ∧
      (∀ q ∈ (runBody hp body).props, q.notification = false) := by
  intro body
  induction body with
  | nil => intro hp h; exact ⟨rfl, h⟩
  | cons w rest ih =>
    intro hp h
    obtain ⟨q, v⟩ := w
    have hall : ∀ x ∈ (writeList hp.props q v).1, x.notification = false := by
      intro x hx
      have hmap := writeList_notifications hp.props q v
      have hmem : (x.name, x.notification) ∈
          hp.props.map (fun r => (r.name, r.notification)) := by
        rw [← hmap]
        exact List.mem_map_of_mem _ hx
      rcases List.mem_map.mp hmem with ⟨r, hr, hreq⟩
      have hxr : x.notification = r.notification := by
        have h2 := congrArg Prod.snd hreq
        simpa using h2.symm
      rw [hxr]
      exact h r hr
    have hfired : (writeList hp.props q v).2 = false :=
      writeList_fired_false_all hp.props q v h
    have hwrite : write hp q v
        = { props := (writeList hp.props q v).1, events := hp.events } := by
      unfold write
      dsimp only
      rw [hfired]
      simp
    have hstep := ih (write hp q v) (by rw [hwrite]; exact hall)
    rw [show runBody hp ((q, v) :: rest) = runBody (write hp q v) rest
      from rfl] at *
    refine ⟨?_, hstep.2⟩
    rw [hstep.1, hwrite]

end HasPropertiesState

theorem writeList_names :
    ∀ (props : List HProp) (p : String) (v : Int),
      ((writeList props p v).1).map (·.name) = props.map (·.name) := by
  intro props
  induction props with
  | nil => intro p v; rfl
  | cons x rest ih =>
    intro p v
    unfold writeList
    by_cases hx : x.name = p
    · rw [if_pos hx]
      rfl
    · rw [if_neg hx]
      simp only [List.map_cons, ih]

theorem setNotifList_getNotif_false :
    ∀ (props : List HProp) (p : String),
      getNotif (setNotifList props p false) p = false := by
  intro props p
  by_cases hmem : p ∈ props.map (·.name)
  · exact setNotifList_getNotif_present props p false hmem
  · rw [setNotifList_absent props p false hmem]
    exact getNotif_absent props p hmem

namespace HasPropertiesState

theorem runBody_names :
    ∀ (body : List (String × Int)) (hp : HasPropertiesState),
      ((runBody hp body).props).map (·.name) = hp.props.map (·.name) := by
  intro body
  induction body with
  | nil => intro hp; rfl
  | cons w rest ih =>
    intro hp
    obtain ⟨q, v⟩ := w
    rw [show runBody hp ((q, v) :: rest) = runBody (write hp q v) rest
      from rfl, ih]
    exact writeList_names hp.props q v

theorem propNotify_props (hp : HasPropertiesState) (p : String) :
    (propNotify hp p).props = hp.props := by
  unfold propNotify
  split <;> rfl

theorem suppress_props (hp : HasPropertiesState) (p : String)
    (body : List (String × Int)) (raises notifyFlag : Bool) :
    (suppress hp p body raises notifyFlag).props
      = setNotifList (runBody (disableNotification hp p) body).props p
          (getNotif hp.props p) := by
  unfold suppress
  dsimp only
  split
  · rfl
  · split
    · rw [propNotify_props]
      rfl
    · rfl

theorem suppressAll_eq (hp : HasPropertiesState)
    (body : List (String × Int)) (raises : Bool) :
    suppressAll hp body raises
      = enableAllNotification (runBody (disableAllNotification hp) body) := by
  unfold suppressAll
  dsimp only
  split <;> rfl

theorem disableAll_all_disabled (hp : HasPropertiesState) :
    ∀ q ∈ (disableAllNotification hp).props, q.notification = false := by
  intro q hq
  unfold disableAllNotification at hq
  rcases List.mem_map.mp hq with ⟨r, _, hr⟩
  rw [← hr]

/-- C8: corrected.  For `suppress(hasProps, p)` the claim holds: while
the scope runs, no listener of `p` fires (the body's events avoid `p`),
and on EVERY exit path — raising or not, final-notify flag or not — the
notification state of `p` is restored to exactly its pre-scope value.
For `suppressAll`, only the first half holds: no listener at all fires
during the body, but on exit (both paths) `enableAllNotification` is
called, which forces every property's notification to enabled rather
than restoring the saved state. -/
theorem C8_amended_suppress_scopes (hp : HasPropertiesState) (p : String)
    (body : List (String × Int)) (raises notifyFlag : Bool) :
    (∃ new, (runBody (disableNotification hp p) body).events
        = hp.events ++ new ∧ p ∉ new) ∧
    getNotificationState (suppress hp p body raises notifyFlag) p
      = getNotificationState hp p ∧
    (runBody (disableAllNotification hp) body).events = hp.events ∧
    (∀ q ∈ (suppressAll hp body raises).props, q.notification = true) := by
  refine ⟨?_, ?_, ?_, ?_⟩
  · have hdis : getNotif (disableNotification hp p).props p = false :=
      setNotifList_getNotif_false hp.props p
    obtain ⟨new, hev, hnp, _⟩ :=
      runBody_no_target_events p body (disableNotification hp p) hdis
    exact ⟨new, hev, hnp⟩
  · unfold getNotificationState
    rw [suppress_props]
    by_cases hmem : p ∈ hp.props.map (·.name)
    · have hmem2 : p ∈ ((runBody (disableNotification hp p) body).props).map
          (·.name) := by
        rw [runBody_names]
        unfold disableNotification setNotificationState
        rw [setNotifList_names]
        exact hmem
      exact setNotifList_getNotif_present _ p _ hmem2
    · have hmem2 : p ∉ ((runBody (disableNotification hp p) body).props).map
          (·.name) := by
        rw [runBody_names]
        unfold disableNotification setNotificationState
        rw [setNotifList_names]
        exact hmem
      rw [setNotifList_absent _ p _ hmem2, getNotif_absent _ p hmem2,
        getNotif_absent hp.props p hmem]
  · exact (runBody_all_disabled body (disableAllNotification hp)
      (disableAll_all_disabled hp)).1
  · intro q hq
    rw [suppressAll_eq] at hq
    unfold enableAllNotification at hq
    rcases List.mem_map.mp hq with ⟨r, _, hr⟩
    rw [← hr]

end HasPropertiesState

/-- A `HasProperties` instance with one property `x` whose notification
is disabled before the scope. -/
def hpC8 : HasPropertiesState := ⟨[⟨"x", 0, false⟩], []⟩

/-- C8: counterexample to the restoration half of the claim for
`suppressAll`.  The property `x` has notification DISABLED before the
scope; after `suppressAll` exits (here via an exception), its
notification is ENABLED — not restored to the pre-scope state. -/
theorem C8_suppressAll_counterexample :
    HasPropertiesState.getNotificationState hpC8 "x" = false ∧
    HasPropertiesState.getNotificationState
      (HasPropertiesState.suppressAll hpC8 [("x", 5)] true) "x" = true := by
  exact ⟨rfl, rfl⟩

/-! ## The revalidation cascade (src/props/properties.py)

`PropertyBase._makePropVal` registers `self._valChanged` as the
`preNotifyFunc` of every managed `PropertyValue`.  `_valChanged`'s body
revalidates every OTHER property of the instance, which is the cascade
the spec describes.  But `PropertyValue.notify` invokes every listener —
the prenotify function included — through the shared `CallQueue` with
`args = (value, valid, self._context(), self._name)`: four positional
arguments, while `def _valChanged(self, value, valid, instance)`
declares only three parameters after `self`.  `CallQueue.__call` runs
`call.func(*call.args)` inside `except Exception`, so the resulting
`TypeError` is logged and swallowed and the cascade body never runs. -/

namespace Cascade

/-- Parameters of `def _valChanged(self, value, valid, instance)` after
`self` (src/props/properties.py line 282). -/
def valChangedParamCount : Nat := 3

/-- Positional arguments of `args = (value, valid, self._context(),
self._name)` that `PropertyValue.notify` passes to every listener,
the prenotify function included (src/props/properties_value.py). -/
def notifyArgCount : Nat := 4

/-- A `HasProperties` instance with two `Int` properties: `p`, and a
sibling `q` whose validity depends on `p` (valid iff `q ≤ p`, a
max-constraint from `properties_types.Number.validate`).  `qNotified`
records whether `q`'s own listeners have fired; `typeErrors` counts the
exceptions `CallQueue.__call` caught and logged while draining. -/
structure CascadeSys where
  pValue     : Int
  qValue     : Int
  qValid     : Bool
  qNotified  : Bool
  typeErrors : Nat
deriving DecidableEq, Repr

/-- The body of `PropertyBase._valChanged`: for every property other
than the changed one, `prop.revalidate(instance)` re-runs `set` on the
current value; per `PropertyValue.set`, a validity flip with an
unchanged value still notifies that property's own listeners. -/
def revalidateSiblings (s : CascadeSys) : CascadeSys :=
  let qValidNew := decide (s.qValue ≤ s.pValue)
  { s with qValid    := qValidNew,
           qNotified := s.qNotified || (qValidNew != s.qValid) }

/-- Python call semantics for the queued prenotify callback: invoking a
function of `valChangedParamCount` parameters with `argc` positional
arguments raises `TypeError` before the body runs; otherwise the body
(`revalidateSiblings`) executes. -/
def invokeValChanged (argc : Nat) (s : CascadeSys) :
    Except Unit CascadeSys :=
  if argc = valChangedParamCount then Except.ok (revalidateSiblings s)
  else Except.error ()

/-- `CallQueue.__call` executing the queued prenotify entry:
`call.func(*call.args)` with `notifyArgCount` arguments, wrapped in
`except Exception: log.warn(...)` — an exception is counted and
swallowed, and the drain carries on. -/
def runPrenotify (s : CascadeSys) : CascadeSys :=
  match invokeValChanged notifyArgCount s with
  | Except.ok s'   => s'
  | Except.error _ => { s with typeErrors := s.typeErrors + 1 }

/-- Assignment to property `p`: `PropertyValue.set` stores the new
value, then `notify()` queues the prenotify callback, which the drain
executes at once. -/
def pSet (s : CascadeSys) (v : Int) : CascadeSys :=
  runPrenotify { s with pValue := v }

/-- `p = 10`, `q = 7` currently valid: shrinking `p` to `5` ought to
flip `q`'s validity. -/
def sysC9 : CascadeSys :=
  { pValue := 10, qValue := 7, qValid := true,
    qNotified := false, typeErrors := 0 }

end Cascade

/-- C9: code_bug.  The spec's revalidation cascade is what
`PropertyBase._valChanged` TRIES to do, but the function is registered
as a prenotify listener and invoked with four positional arguments
(`value, valid, context, name`) against its three declared parameters
(`value, valid, instance`), so every invocation raises `TypeError`,
which `CallQueue.__call` catches and logs.  Concretely: after
`pSet sysC9 5` the sibling `q` (now violating `q ≤ p`) keeps its stale
validity and its listeners never fire, while one `TypeError` is logged;
had the body run (`revalidateSiblings`), `q` would have been marked
invalid and its listeners notified. -/
theorem C9_valChanged_arity_bug :
    Cascade.notifyArgCount ≠ Cascade.valChangedParamCount ∧
    Cascade.pSet Cascade.sysC9 5
      = { Cascade.sysC9 with pValue := 5, typeErrors := 1 } ∧
    (Cascade.pSet Cascade.sysC9 5).qValid = Cascade.sysC9.qValid ∧
    (Cascade.pSet Cascade.sysC9 5).qNotified = false ∧
    (Cascade.revalidateSiblings
      { Cascade.sysC9 with pValue := 5 }).qValid = false ∧
    (Cascade.revalidateSiblings
      { Cascade.sysC9 with pValue := 5 }).qNotified = true := by
  decide

end FsleyesProps
